import Mathlib

/-!
Verification development for the WarpX electromagnetic core: current
deposition (direct and Esirkepov charge-conserving), PML split-field
current pushes, and the Cartesian Yee finite-difference derivative family.

The embedding is shallow, over ℚ (exact arithmetic): every C++ kernel is
translated to an executable Lean function.  Machine reals become rationals;
the relativistic velocity `u*gaminv` (whose gamma factor involves a square
root) is passed as an explicit rational velocity parameter, exactly as the
deposition kernels consume it.  Grid arrays become total functions from
cell indices; an atomic add into a cell becomes pointwise addition, and the
value a kernel accumulates into a given cell is expressed as the
corresponding finite sum over the source's loop range.

Sources embedded:
- Source/Particles/Deposition/CurrentDeposition.H
  (doDepositionShapeN, doEsirkepovDepositionShapeN, 2-D x-z configuration)
- Source/BoundaryConditions/PML_current.H
  (push_ex/ey/ez_pml_current, 3-D and 2-D configurations)
- Source/FieldSolver/FiniteDifferenceSolver/FiniteDifferenceAlgorithms/
  CartesianYeeAlgorithm.H (UpwardDy, DownwardDy)
- Particles/ShapeFactors.H is NOT part of the provided sources; its two
  functions are modelled from the specification (see the doc comments of
  `compute_shape_factor` and `compute_shifted_shape_factor`).
-/

/-- Order-0 weights (nearest-grid-point kernel), as a total function on slot
indices: weight 1 on slot 0, zero elsewhere. -/
def sf_weights0 : ℤ → ℚ := fun i => if i = 0 then 1 else 0

/-- Order-1 weights (linear kernel) for fractional offset `f`. -/
def sf_weights1 (f : ℚ) : ℤ → ℚ := fun i =>
  if i = 0 then 1 - f else if i = 1 then f else 0

/-- Order-2 weights (quadratic B-spline kernel) for signed offset `f` from the
nearest grid point. -/
def sf_weights2 (f : ℚ) : ℤ → ℚ := fun i =>
  if i = 0 then 1/2 * (1/2 - f)^2
  else if i = 1 then 3/4 - f^2
  else if i = 2 then 1/2 * (1/2 + f)^2
  else 0

/-- Order-3 weights (cubic B-spline kernel) for fractional offset `f`. -/
def sf_weights3 (f : ℚ) : ℤ → ℚ := fun i =>
  if i = 0 then 1/6 * (1 - f)^3
  else if i = 1 then 2/3 - f^2 * (1 - f/2)
  else if i = 2 then 2/3 - (1 - f)^2 * (1 - (1 - f)/2)
  else if i = 3 then 1/6 * f^3
  else 0

/-- Modelled from the spec: `compute_shape_factor` of Particles/ShapeFactors.H,
which is not among the provided source files.  Per the spec (§4.1), given a
real sub-cell coordinate it returns the integer leftmost covered grid index
together with N+1 weights summing to 1, a symmetric polynomial (B-spline)
interpolation kernel: order 0 is nearest-grid-point, order 1 linear, order 2
quadratic (3 cells, centered on the nearest grid point), order 3 cubic over 4
cells.  Weights are returned as a total function on slot indices 0..N, zero
outside.  Orders above 3 do not exist in the code and are mapped to a zero
kernel. -/
def compute_shape_factor (N : ℕ) (x : ℚ) : ℤ × (ℤ → ℚ) :=
  match N with
  | 0 => (⌊x + 1/2⌋, sf_weights0)
  | 1 => (⌊x⌋, sf_weights1 (x - ⌊x⌋))
  | 2 => (⌊x + 1/2⌋ - 1, sf_weights2 (x - ⌊x + 1/2⌋))
  | 3 => (⌊x⌋ - 1, sf_weights3 (x - ⌊x⌋))
  | _ + 4 => (0, fun _ => 0)

/-- Modelled from the spec: `compute_shifted_shape_factor` of
Particles/ShapeFactors.H (not among the provided source files).  Per the spec
(§4.1) it produces the same kernel as `compute_shape_factor`, pre-shifted to
align with a different reference leftmost index `i_ref`, with out-of-window
entries zero-filled.  In the Esirkepov caller the common window is indexed so
that slot `idx` holds the weight of grid cell `i_ref - 1 + idx`; the old
kernel's weight for cell `c` is its slot `c - i_old`, hence slot `idx` of the
shifted array reads the unshifted kernel at `idx - 1 - (i_old - i_ref)`. -/
def compute_shifted_shape_factor (N : ℕ) (x : ℚ) (i_ref : ℤ) : ℤ × (ℤ → ℚ) :=
  let p := compute_shape_factor N x
  (p.1, fun idx => p.2 (idx - 1 - (p.1 - i_ref)))

/-- Inputs of one particle's Esirkepov deposition in the 2-D x-z
configuration of `doEsirkepovDepositionShapeN` (CurrentDeposition.H,
`WARPX_DIM_XZ` branch): grid quantities (`dt`, cell sizes `dxv = dx[0]`,
`dzv = dx[2]`, lower corner `xmin`,`zmin`), species charge `q`, particle
weight `wp`, optional ionization level `ion` (null pointer = `none`), the
relativistic velocity components `vx = uxp*gaminv` etc., and the particle
position `xp`, `zp`. -/
structure Esirk2D where
  dt : ℚ
  dxv : ℚ
  dzv : ℚ
  xmin : ℚ
  zmin : ℚ
  q : ℚ
  wp : ℚ
  ion : Option ℤ
  vx : ℚ
  vy : ℚ
  vz : ℚ
  xp : ℚ
  zp : ℚ
deriving DecidableEq

/-- Charge-weighted particle charge `wq = q*wp[ip]`, times the ionization
level when `ion_lev` is a non-null pointer. -/
def Esirk2D.wq (p : Esirk2D) : ℚ :=
  p.q * p.wp * (match p.ion with | none => 1 | some n => (n : ℚ))

/-- Inverse cell size `dxi = 1/dx[0]`. -/
def Esirk2D.dxi (p : Esirk2D) : ℚ := 1 / p.dxv

/-- Inverse cell size `dzi = 1/dx[2]`. -/
def Esirk2D.dzi (p : Esirk2D) : ℚ := 1 / p.dzv

/-- `dtsdx0 = dt*dxi`. -/
def Esirk2D.dtsdx0 (p : Esirk2D) : ℚ := p.dt * p.dxi

/-- `dtsdz0 = dt*dzi`. -/
def Esirk2D.dtsdz0 (p : Esirk2D) : ℚ := p.dt * p.dzi

/-- `invdtdx = 1/(dt*dx[2])` (2-D x-z branch). -/
def Esirk2D.invdtdx (p : Esirk2D) : ℚ := 1 / (p.dt * p.dzv)

/-- `invdtdz = 1/(dt*dx[0])` (2-D x-z branch). -/
def Esirk2D.invdtdz (p : Esirk2D) : ℚ := 1 / (p.dt * p.dxv)

/-- `invvol = 1/(dx[0]*dx[2])` (2-D x-z branch). -/
def Esirk2D.invvol (p : Esirk2D) : ℚ := 1 / (p.dxv * p.dzv)

/-- `wqx = wq*invdtdx`. -/
def Esirk2D.wqx (p : Esirk2D) : ℚ := p.wq * p.invdtdx

/-- `wqz = wq*invdtdz`. -/
def Esirk2D.wqz (p : Esirk2D) : ℚ := p.wq * p.invdtdz

/-- New particle position in grid units, `x_new = (xp - xmin)*dxi`. -/
def Esirk2D.x_new (p : Esirk2D) : ℚ := (p.xp - p.xmin) * p.dxi

/-- Old particle position in grid units,
`x_old = x_new - dtsdx0*uxp*gaminv`. -/
def Esirk2D.x_old (p : Esirk2D) : ℚ := p.x_new - p.dtsdx0 * p.vx

/-- New particle position in grid units, `z_new = (zp - zmin)*dzi`. -/
def Esirk2D.z_new (p : Esirk2D) : ℚ := (p.zp - p.zmin) * p.dzi

/-- Old particle position in grid units,
`z_old = z_new - dtsdz0*uzp*gaminv`. -/
def Esirk2D.z_old (p : Esirk2D) : ℚ := p.z_new - p.dtsdz0 * p.vz

/-- Leftmost grid point the particle currently touches along x,
`i_new = compute_shape_factor(sx_new+1, x_new)`. -/
def Esirk2D.i_new (N : ℕ) (p : Esirk2D) : ℤ :=
  (compute_shape_factor N p.x_new).1

/-- The window array `sx_new` (size order+3 in the C++ code, total function
here): the caller writes the new kernel starting at slot 1
(`compute_shape_factor(sx_new+1, x_new)`), slots 0 and order+2 stay zero. -/
def Esirk2D.sx_new_arr (N : ℕ) (p : Esirk2D) : ℤ → ℚ := fun idx =>
  (compute_shape_factor N p.x_new).2 (idx - 1)

/-- Leftmost grid point of the old position along x, as returned by
`compute_shifted_shape_factor(sx_old, x_old, i_new)`. -/
def Esirk2D.i_old (N : ℕ) (p : Esirk2D) : ℤ :=
  (compute_shifted_shape_factor N p.x_old (Esirk2D.i_new N p)).1

/-- The window array `sx_old`, filled by
`compute_shifted_shape_factor(sx_old, x_old, i_new)`. -/
def Esirk2D.sx_old_arr (N : ℕ) (p : Esirk2D) : ℤ → ℚ := fun idx =>
  (compute_shifted_shape_factor N p.x_old (Esirk2D.i_new N p)).2 idx

/-- Leftmost grid point the particle currently touches along z. -/
def Esirk2D.k_new (N : ℕ) (p : Esirk2D) : ℤ :=
  (compute_shape_factor N p.z_new).1

/-- The window array `sz_new` (new kernel written at slot offset 1). -/
def Esirk2D.sz_new_arr (N : ℕ) (p : Esirk2D) : ℤ → ℚ := fun idx =>
  (compute_shape_factor N p.z_new).2 (idx - 1)

/-- Leftmost grid point of the old position along z. -/
def Esirk2D.k_old (N : ℕ) (p : Esirk2D) : ℤ :=
  (compute_shifted_shape_factor N p.z_old (Esirk2D.k_new N p)).1

/-- The window array `sz_old`, filled by
`compute_shifted_shape_factor(sz_old, z_old, k_new)`. -/
def Esirk2D.sz_old_arr (N : ℕ) (p : Esirk2D) : ℤ → ℚ := fun idx =>
  (compute_shifted_shape_factor N p.z_old (Esirk2D.k_new N p)).2 idx

/-- Lower trim of the x accumulation range:
`int dil = 1; if (i_old < i_new) dil = 0;`. -/
def Esirk2D.dil (N : ℕ) (p : Esirk2D) : ℤ :=
  if Esirk2D.i_old N p < Esirk2D.i_new N p then 0 else 1

/-- Upper trim of the x accumulation range:
`int diu = 1; if (i_old > i_new) diu = 0;`. -/
def Esirk2D.diu (N : ℕ) (p : Esirk2D) : ℤ :=
  if Esirk2D.i_new N p < Esirk2D.i_old N p then 0 else 1

/-- Lower trim of the z accumulation range:
`int dkl = 1; if (k_old < k_new) dkl = 0;`. -/
def Esirk2D.dkl (N : ℕ) (p : Esirk2D) : ℤ :=
  if Esirk2D.k_old N p < Esirk2D.k_new N p then 0 else 1

/-- Upper trim of the z accumulation range:
`int dku = 1; if (k_old > k_new) dku = 0;`. -/
def Esirk2D.dku (N : ℕ) (p : Esirk2D) : ℤ :=
  if Esirk2D.k_new N p < Esirk2D.k_old N p then 0 else 1

/-- Amount the Esirkepov loop accumulates into `Jx_arr` at absolute cell `c`
(2-D x-z branch).  The loop writes cell `(lo.x+i_new-1+i, lo.y+k_new-1+k)` for
`k` in `[dkl, order+2-dku]` and `i` in `[dil, order+1-diu]`; the value written
at slot `i` is the running accumulator `sdxi`, i.e. the sum of
`wqx*(sx_old[i2]-sx_new[i2])*(sz_new[k]+0.5*(sz_old[k]-sz_new[k]))` over
`i2` from `dil` to `i`.  Cells never written receive 0.  (The `lo` offset is
absorbed into the cell coordinate.) -/
def Esirk2D.JxDep (N : ℕ) (p : Esirk2D) (c : ℤ × ℤ) : ℚ :=
  if Esirk2D.dkl N p ≤ c.2 - (Esirk2D.k_new N p - 1) ∧
     c.2 - (Esirk2D.k_new N p - 1) ≤ (N : ℤ) + 2 - Esirk2D.dku N p ∧
     Esirk2D.dil N p ≤ c.1 - (Esirk2D.i_new N p - 1) ∧
     c.1 - (Esirk2D.i_new N p - 1) ≤ (N : ℤ) + 1 - Esirk2D.diu N p then
    ∑ i2 ∈ Finset.Icc (Esirk2D.dil N p) (c.1 - (Esirk2D.i_new N p - 1)),
      Esirk2D.wqx p * (Esirk2D.sx_old_arr N p i2 - Esirk2D.sx_new_arr N p i2) *
        (Esirk2D.sz_new_arr N p (c.2 - (Esirk2D.k_new N p - 1)) +
          1/2 * (Esirk2D.sz_old_arr N p (c.2 - (Esirk2D.k_new N p - 1)) -
            Esirk2D.sz_new_arr N p (c.2 - (Esirk2D.k_new N p - 1))))
  else 0

/-- Amount the Esirkepov loop accumulates into `Jy_arr` at absolute cell `c`
(2-D x-z branch, mode 0): for `k` in `[dkl, order+2-dku]` and `i` in
`[dil, order+2-diu]` the written value is
`wq*vy*invvol*((sz_new[k]+0.5*(sz_old[k]-sz_new[k]))*sx_new[i] +
(0.5*sz_new[k]+1/3*(sz_old[k]-sz_new[k]))*(sx_old[i]-sx_new[i]))`. -/
def Esirk2D.JyDep (N : ℕ) (p : Esirk2D) (c : ℤ × ℤ) : ℚ :=
  if Esirk2D.dkl N p ≤ c.2 - (Esirk2D.k_new N p - 1) ∧
     c.2 - (Esirk2D.k_new N p - 1) ≤ (N : ℤ) + 2 - Esirk2D.dku N p ∧
     Esirk2D.dil N p ≤ c.1 - (Esirk2D.i_new N p - 1) ∧
     c.1 - (Esirk2D.i_new N p - 1) ≤ (N : ℤ) + 2 - Esirk2D.diu N p then
    Esirk2D.wq p * p.vy * Esirk2D.invvol p *
      ((Esirk2D.sz_new_arr N p (c.2 - (Esirk2D.k_new N p - 1)) +
          1/2 * (Esirk2D.sz_old_arr N p (c.2 - (Esirk2D.k_new N p - 1)) -
            Esirk2D.sz_new_arr N p (c.2 - (Esirk2D.k_new N p - 1)))) *
        Esirk2D.sx_new_arr N p (c.1 - (Esirk2D.i_new N p - 1)) +
       (1/2 * Esirk2D.sz_new_arr N p (c.2 - (Esirk2D.k_new N p - 1)) +
          1/3 * (Esirk2D.sz_old_arr N p (c.2 - (Esirk2D.k_new N p - 1)) -
            Esirk2D.sz_new_arr N p (c.2 - (Esirk2D.k_new N p - 1)))) *
        (Esirk2D.sx_old_arr N p (c.1 - (Esirk2D.i_new N p - 1)) -
          Esirk2D.sx_new_arr N p (c.1 - (Esirk2D.i_new N p - 1))))
  else 0

/-- Amount the Esirkepov loop accumulates into `Jz_arr` at absolute cell `c`
(2-D x-z branch): for `i` in `[dil, order+2-diu]` and `k` in
`[dkl, order+1-dku]` the written value is the running accumulator `sdzk`,
i.e. the sum of `wqz*(sz_old[k2]-sz_new[k2])*(sx_new[i]+0.5*(sx_old[i]-sx_new[i]))`
over `k2` from `dkl` to `k`. -/
def Esirk2D.JzDep (N : ℕ) (p : Esirk2D) (c : ℤ × ℤ) : ℚ :=
  if Esirk2D.dil N p ≤ c.1 - (Esirk2D.i_new N p - 1) ∧
     c.1 - (Esirk2D.i_new N p - 1) ≤ (N : ℤ) + 2 - Esirk2D.diu N p ∧
     Esirk2D.dkl N p ≤ c.2 - (Esirk2D.k_new N p - 1) ∧
     c.2 - (Esirk2D.k_new N p - 1) ≤ (N : ℤ) + 1 - Esirk2D.dku N p then
    ∑ k2 ∈ Finset.Icc (Esirk2D.dkl N p) (c.2 - (Esirk2D.k_new N p - 1)),
      Esirk2D.wqz p * (Esirk2D.sz_old_arr N p k2 - Esirk2D.sz_new_arr N p k2) *
        (Esirk2D.sx_new_arr N p (c.1 - (Esirk2D.i_new N p - 1)) +
          1/2 * (Esirk2D.sx_old_arr N p (c.1 - (Esirk2D.i_new N p - 1)) -
            Esirk2D.sx_new_arr N p (c.1 - (Esirk2D.i_new N p - 1))))
  else 0

/-- New-position shape kernel on absolute x cells:
`SxN c = s_new(c - i_new)`. -/
def Esirk2D.SxN (N : ℕ) (p : Esirk2D) (cx : ℤ) : ℚ :=
  (compute_shape_factor N p.x_new).2 (cx - Esirk2D.i_new N p)

/-- Old-position shape kernel on absolute x cells:
`SxO c = s_old(c - i_old)`. -/
def Esirk2D.SxO (N : ℕ) (p : Esirk2D) (cx : ℤ) : ℚ :=
  (compute_shape_factor N p.x_old).2 (cx - Esirk2D.i_old N p)

/-- New-position shape kernel on absolute z cells. -/
def Esirk2D.SzN (N : ℕ) (p : Esirk2D) (cz : ℤ) : ℚ :=
  (compute_shape_factor N p.z_new).2 (cz - Esirk2D.k_new N p)

/-- Old-position shape kernel on absolute z cells. -/
def Esirk2D.SzO (N : ℕ) (p : Esirk2D) (cz : ℤ) : ℚ :=
  (compute_shape_factor N p.z_old).2 (cz - Esirk2D.k_old N p)

/-- Charge density implied by the particle at its new position: the
charge-weighted product of the per-axis shape kernels over the cell volume,
`rho(c) = wq * invvol * Sx(c.1) * Sz(c.2)`. -/
def Esirk2D.rhoNew (N : ℕ) (p : Esirk2D) (c : ℤ × ℤ) : ℚ :=
  Esirk2D.wq p * Esirk2D.invvol p * Esirk2D.SxN N p c.1 * Esirk2D.SzN N p c.2

/-- Charge density implied by the particle at its old position
(`position - dt*velocity`). -/
def Esirk2D.rhoOld (N : ℕ) (p : Esirk2D) (c : ℤ × ℤ) : ℚ :=
  Esirk2D.wq p * Esirk2D.invvol p * Esirk2D.SxO N p c.1 * Esirk2D.SzO N p c.2

/-- Prefix sum of the x kernel difference from the window base `i_new - 1`
up to cell `cx` (the value of the `sdxi` accumulator divided by
`wqx*Wz`). -/
def Esirk2D.preX (N : ℕ) (p : Esirk2D) (cx : ℤ) : ℚ :=
  ∑ c ∈ Finset.Icc (Esirk2D.i_new N p - 1) cx,
    (Esirk2D.SxO N p c - Esirk2D.SxN N p c)

/-- Prefix sum of the z kernel difference from the window base `k_new - 1`
up to cell `cz`. -/
def Esirk2D.preZ (N : ℕ) (p : Esirk2D) (cz : ℤ) : ℚ :=
  ∑ c ∈ Finset.Icc (Esirk2D.k_new N p - 1) cz,
    (Esirk2D.SzO N p c - Esirk2D.SzN N p c)

/-- The time-averaged z weight `sz_new + 0.5*(sz_old - sz_new)` on absolute
cells. -/
def Esirk2D.wzAvg (N : ℕ) (p : Esirk2D) (cz : ℤ) : ℚ :=
  Esirk2D.SzN N p cz + 1/2 * (Esirk2D.SzO N p cz - Esirk2D.SzN N p cz)

/-- The time-averaged x weight `sx_new + 0.5*(sx_old - sx_new)` on absolute
cells. -/
def Esirk2D.wxAvg (N : ℕ) (p : Esirk2D) (cx : ℤ) : ℚ :=
  Esirk2D.SxN N p cx + 1/2 * (Esirk2D.SxO N p cx - Esirk2D.SxN N p cx)

/-- Untrimmed variant of `Esirk2D.JxDep`: the same accumulation with all four
trim deltas replaced by zero, i.e. the loop runs over the full
(order+3)-sized window `k` in `[0, order+2]`, `i` in `[0, order+2]`. -/
def Esirk2D.JxDepFull (N : ℕ) (p : Esirk2D) (c : ℤ × ℤ) : ℚ :=
  if 0 ≤ c.2 - (Esirk2D.k_new N p - 1) ∧
     c.2 - (Esirk2D.k_new N p - 1) ≤ (N : ℤ) + 2 ∧
     0 ≤ c.1 - (Esirk2D.i_new N p - 1) ∧
     c.1 - (Esirk2D.i_new N p - 1) ≤ (N : ℤ) + 2 then
    ∑ i2 ∈ Finset.Icc (0 : ℤ) (c.1 - (Esirk2D.i_new N p - 1)),
      Esirk2D.wqx p * (Esirk2D.sx_old_arr N p i2 - Esirk2D.sx_new_arr N p i2) *
        (Esirk2D.sz_new_arr N p (c.2 - (Esirk2D.k_new N p - 1)) +
          1/2 * (Esirk2D.sz_old_arr N p (c.2 - (Esirk2D.k_new N p - 1)) -
            Esirk2D.sz_new_arr N p (c.2 - (Esirk2D.k_new N p - 1))))
  else 0

/-- Untrimmed variant of `Esirk2D.JyDep` over the full window. -/
def Esirk2D.JyDepFull (N : ℕ) (p : Esirk2D) (c : ℤ × ℤ) : ℚ :=
  if 0 ≤ c.2 - (Esirk2D.k_new N p - 1) ∧
     c.2 - (Esirk2D.k_new N p - 1) ≤ (N : ℤ) + 2 ∧
     0 ≤ c.1 - (Esirk2D.i_new N p - 1) ∧
     c.1 - (Esirk2D.i_new N p - 1) ≤ (N : ℤ) + 2 then
    Esirk2D.wq p * p.vy * Esirk2D.invvol p *
      ((Esirk2D.sz_new_arr N p (c.2 - (Esirk2D.k_new N p - 1)) +
          1/2 * (Esirk2D.sz_old_arr N p (c.2 - (Esirk2D.k_new N p - 1)) -
            Esirk2D.sz_new_arr N p (c.2 - (Esirk2D.k_new N p - 1)))) *
        Esirk2D.sx_new_arr N p (c.1 - (Esirk2D.i_new N p - 1)) +
       (1/2 * Esirk2D.sz_new_arr N p (c.2 - (Esirk2D.k_new N p - 1)) +
          1/3 * (Esirk2D.sz_old_arr N p (c.2 - (Esirk2D.k_new N p - 1)) -
            Esirk2D.sz_new_arr N p (c.2 - (Esirk2D.k_new N p - 1)))) *
        (Esirk2D.sx_old_arr N p (c.1 - (Esirk2D.i_new N p - 1)) -
          Esirk2D.sx_new_arr N p (c.1 - (Esirk2D.i_new N p - 1))))
  else 0

/-- Untrimmed variant of `Esirk2D.JzDep` over the full window. -/
def Esirk2D.JzDepFull (N : ℕ) (p : Esirk2D) (c : ℤ × ℤ) : ℚ :=
  if 0 ≤ c.1 - (Esirk2D.i_new N p - 1) ∧
     c.1 - (Esirk2D.i_new N p - 1) ≤ (N : ℤ) + 2 ∧
     0 ≤ c.2 - (Esirk2D.k_new N p - 1) ∧
     c.2 - (Esirk2D.k_new N p - 1) ≤ (N : ℤ) + 2 then
    ∑ k2 ∈ Finset.Icc (0 : ℤ) (c.2 - (Esirk2D.k_new N p - 1)),
      Esirk2D.wqz p * (Esirk2D.sz_old_arr N p k2 - Esirk2D.sz_new_arr N p k2) *
        (Esirk2D.sx_new_arr N p (c.1 - (Esirk2D.i_new N p - 1)) +
          1/2 * (Esirk2D.sx_old_arr N p (c.1 - (Esirk2D.i_new N p - 1)) -
            Esirk2D.sx_new_arr N p (c.1 - (Esirk2D.i_new N p - 1))))
  else 0

/-- Inputs of one particle's direct deposition in the 2-D x-z configuration
of `doDepositionShapeN` (CurrentDeposition.H, `WARPX_DIM_XZ` branch).  The
`j?_nodal_?` flags are the per-axis staggering types of the three current
components (`true` = NODE, `false` = CELL), and `lox`,`loz` is the index
lower bound `lo` of the domain. -/
structure Direct2D where
  dt : ℚ
  dxv : ℚ
  dzv : ℚ
  xmin : ℚ
  zmin : ℚ
  q : ℚ
  wp : ℚ
  ion : Option ℤ
  vx : ℚ
  vy : ℚ
  vz : ℚ
  xp : ℚ
  zp : ℚ
  jx_nodal_x : Bool
  jx_nodal_z : Bool
  jy_nodal_x : Bool
  jy_nodal_z : Bool
  jz_nodal_x : Bool
  jz_nodal_z : Bool
  lox : ℤ
  loz : ℤ
deriving DecidableEq

/-- Charge-weighted particle charge `wq = q*wp[ip]` (times ionization level
when present). -/
def Direct2D.wq (p : Direct2D) : ℚ :=
  p.q * p.wp * (match p.ion with | none => 1 | some n => (n : ℚ))

/-- Inverse cell size `dxi = 1/dx[0]`. -/
def Direct2D.dxi (p : Direct2D) : ℚ := 1 / p.dxv

/-- Inverse cell size `dzi = 1/dx[2]`. -/
def Direct2D.dzi (p : Direct2D) : ℚ := 1 / p.dzv

/-- `dts2dx = 0.5*dt*dxi`. -/
def Direct2D.dts2dx (p : Direct2D) : ℚ := 1/2 * p.dt * p.dxi

/-- `dts2dz = 0.5*dt*dzi`. -/
def Direct2D.dts2dz (p : Direct2D) : ℚ := 1/2 * p.dt * p.dzi

/-- `invvol = dxi*dzi` (2-D branch). -/
def Direct2D.invvol (p : Direct2D) : ℚ := p.dxi * p.dzi

/-- `wqx = wq*invvol*vx` with `vx = uxp*gaminv`. -/
def Direct2D.wqx (p : Direct2D) : ℚ := Direct2D.wq p * Direct2D.invvol p * p.vx

/-- `wqy = wq*invvol*vy`. -/
def Direct2D.wqy (p : Direct2D) : ℚ := Direct2D.wq p * Direct2D.invvol p * p.vy

/-- `wqz = wq*invvol*vz`. -/
def Direct2D.wqz (p : Direct2D) : ℚ := Direct2D.wq p * Direct2D.invvol p * p.vz

/-- Mid-step deposition point along x in grid units,
`xmid = (xp - xmin)*dxi - dts2dx*vx`. -/
def Direct2D.xmid (p : Direct2D) : ℚ := (p.xp - p.xmin) * p.dxi - p.dts2dx * p.vx

/-- Mid-step deposition point along z in grid units. -/
def Direct2D.zmid (p : Direct2D) : ℚ := (p.zp - p.zmin) * p.dzi - p.dts2dz * p.vz

/-- Leftmost index for node-centered components along x,
`j_node = compute_shape_factor(sx_node, xmid)`. -/
def Direct2D.j_node (N : ℕ) (p : Direct2D) : ℤ :=
  (compute_shape_factor N p.xmid).1

/-- Node-centered shape weights along x. -/
def Direct2D.sx_node (N : ℕ) (p : Direct2D) : ℤ → ℚ :=
  (compute_shape_factor N p.xmid).2

/-- Leftmost index for cell-centered components along x,
`j_cell = compute_shape_factor(sx_cell, xmid - 0.5)`. -/
def Direct2D.j_cell (N : ℕ) (p : Direct2D) : ℤ :=
  (compute_shape_factor N (p.xmid - 1/2)).1

/-- Cell-centered shape weights along x. -/
def Direct2D.sx_cell (N : ℕ) (p : Direct2D) : ℤ → ℚ :=
  (compute_shape_factor N (p.xmid - 1/2)).2

/-- Leftmost index for node-centered components along z. -/
def Direct2D.l_node (N : ℕ) (p : Direct2D) : ℤ :=
  (compute_shape_factor N p.zmid).1

/-- Node-centered shape weights along z. -/
def Direct2D.sz_node (N : ℕ) (p : Direct2D) : ℤ → ℚ :=
  (compute_shape_factor N p.zmid).2

/-- Leftmost index for cell-centered components along z. -/
def Direct2D.l_cell (N : ℕ) (p : Direct2D) : ℤ :=
  (compute_shape_factor N (p.zmid - 1/2)).1

/-- Cell-centered shape weights along z. -/
def Direct2D.sz_cell (N : ℕ) (p : Direct2D) : ℤ → ℚ :=
  (compute_shape_factor N (p.zmid - 1/2)).2

/-- Shape weights used for `jx` along x: `(jx_type[0] == NODE) ? sx_node :
sx_cell`. -/
def Direct2D.sx_jx (N : ℕ) (p : Direct2D) : ℤ → ℚ :=
  if p.jx_nodal_x then Direct2D.sx_node N p else Direct2D.sx_cell N p

/-- Leftmost x index used for `jx`. -/
def Direct2D.j_jx (N : ℕ) (p : Direct2D) : ℤ :=
  if p.jx_nodal_x then Direct2D.j_node N p else Direct2D.j_cell N p

/-- Shape weights used for `jx` along z. -/
def Direct2D.sz_jx (N : ℕ) (p : Direct2D) : ℤ → ℚ :=
  if p.jx_nodal_z then Direct2D.sz_node N p else Direct2D.sz_cell N p

/-- Leftmost z index used for `jx`. -/
def Direct2D.l_jx (N : ℕ) (p : Direct2D) : ℤ :=
  if p.jx_nodal_z then Direct2D.l_node N p else Direct2D.l_cell N p

/-- Shape weights used for `jy` along x. -/
def Direct2D.sx_jy (N : ℕ) (p : Direct2D) : ℤ → ℚ :=
  if p.jy_nodal_x then Direct2D.sx_node N p else Direct2D.sx_cell N p

/-- Leftmost x index used for `jy`. -/
def Direct2D.j_jy (N : ℕ) (p : Direct2D) : ℤ :=
  if p.jy_nodal_x then Direct2D.j_node N p else Direct2D.j_cell N p

/-- Shape weights used for `jy` along z. -/
def Direct2D.sz_jy (N : ℕ) (p : Direct2D) : ℤ → ℚ :=
  if p.jy_nodal_z then Direct2D.sz_node N p else Direct2D.sz_cell N p

/-- Leftmost z index used for `jy`. -/
def Direct2D.l_jy (N : ℕ) (p : Direct2D) : ℤ :=
  if p.jy_nodal_z then Direct2D.l_node N p else Direct2D.l_cell N p

/-- Shape weights used for `jz` along x. -/
def Direct2D.sx_jz (N : ℕ) (p : Direct2D) : ℤ → ℚ :=
  if p.jz_nodal_x then Direct2D.sx_node N p else Direct2D.sx_cell N p

/-- Leftmost x index used for `jz`. -/
def Direct2D.j_jz (N : ℕ) (p : Direct2D) : ℤ :=
  if p.jz_nodal_x then Direct2D.j_node N p else Direct2D.j_cell N p

/-- Shape weights used for `jz` along z. -/
def Direct2D.sz_jz (N : ℕ) (p : Direct2D) : ℤ → ℚ :=
  if p.jz_nodal_z then Direct2D.sz_node N p else Direct2D.sz_cell N p

/-- Leftmost z index used for `jz`. -/
def Direct2D.l_jz (N : ℕ) (p : Direct2D) : ℤ :=
  if p.jz_nodal_z then Direct2D.l_node N p else Direct2D.l_cell N p

/-- Amount the direct deposition loop adds into `jx_arr` at absolute cell
`c`: for `iz`,`ix` in `[0, order]` the loop atomically adds
`sx_jx[ix]*sz_jx[iz]*wqx` at `(lo.x+j_jx+ix, lo.y+l_jx+iz)`; other cells
receive 0. -/
def Direct2D.jxDep (N : ℕ) (p : Direct2D) (c : ℤ × ℤ) : ℚ :=
  if 0 ≤ c.1 - p.lox - Direct2D.j_jx N p ∧ c.1 - p.lox - Direct2D.j_jx N p ≤ (N : ℤ) ∧
     0 ≤ c.2 - p.loz - Direct2D.l_jx N p ∧ c.2 - p.loz - Direct2D.l_jx N p ≤ (N : ℤ) then
    Direct2D.sx_jx N p (c.1 - p.lox - Direct2D.j_jx N p) *
      Direct2D.sz_jx N p (c.2 - p.loz - Direct2D.l_jx N p) * Direct2D.wqx p
  else 0

/-- Amount the direct deposition loop adds into `jy_arr` at absolute cell
`c`. -/
def Direct2D.jyDep (N : ℕ) (p : Direct2D) (c : ℤ × ℤ) : ℚ :=
  if 0 ≤ c.1 - p.lox - Direct2D.j_jy N p ∧ c.1 - p.lox - Direct2D.j_jy N p ≤ (N : ℤ) ∧
     0 ≤ c.2 - p.loz - Direct2D.l_jy N p ∧ c.2 - p.loz - Direct2D.l_jy N p ≤ (N : ℤ) then
    Direct2D.sx_jy N p (c.1 - p.lox - Direct2D.j_jy N p) *
      Direct2D.sz_jy N p (c.2 - p.loz - Direct2D.l_jy N p) * Direct2D.wqy p
  else 0

/-- Amount the direct deposition loop adds into `jz_arr` at absolute cell
`c`. -/
def Direct2D.jzDep (N : ℕ) (p : Direct2D) (c : ℤ × ℤ) : ℚ :=
  if 0 ≤ c.1 - p.lox - Direct2D.j_jz N p ∧ c.1 - p.lox - Direct2D.j_jz N p ≤ (N : ℤ) ∧
     0 ≤ c.2 - p.loz - Direct2D.l_jz N p ∧ c.2 - p.loz - Direct2D.l_jz N p ≤ (N : ℤ) then
    Direct2D.sx_jz N p (c.1 - p.lox - Direct2D.j_jz N p) *
      Direct2D.sz_jz N p (c.2 - p.loz - Direct2D.l_jz N p) * Direct2D.wqz p
  else 0

/-- The particle loop of either deposition strategy for one current
component: starting from the incoming current array `J0`, each particle of
the batch atomically adds its per-particle contribution `contrib p` into the
shared array.  Sequentialized here; order-independence is proved, not
assumed. -/
def depositLoop {α : Type} (contrib : α → ℤ × ℤ → ℚ) (J0 : ℤ × ℤ → ℚ)
    (ps : List α) : ℤ × ℤ → ℚ :=
  ps.foldl (fun J p => fun c => J c + contrib p c) J0

/-- The PML split apportioning weights of PML_current.H (3-D): even 0.5/0.5
split when the two damping coefficients sum to zero (no division performed in
that branch), otherwise each coefficient's relative magnitude. -/
def pml_split_alphas (s1 s2 : ℚ) : ℚ × ℚ :=
  if s1 + s2 = 0 then (1/2, 1/2)
  else (s1 / (s1 + s2), s2 / (s1 + s2))

/-- `push_ex_pml_current`, 3-D branch: the two split sub-components of Ex at
cell `(j,k,l)` are damped by `mu_c2_dt*alpha_xy*jx` and `mu_c2_dt*alpha_xz*jx`
with the weights `alpha` computed from `sigjy[k-ylo]` and `sigjz[l-zlo]`. -/
def push_ex_pml_current3D (sigjy sigjz : ℤ → ℚ) (ylo zlo k l : ℤ)
    (Ex0 Ex1 jx mu_c2_dt : ℚ) : ℚ × ℚ :=
  let a := pml_split_alphas (sigjy (k - ylo)) (sigjz (l - zlo))
  (Ex0 - mu_c2_dt * a.1 * jx, Ex1 - mu_c2_dt * a.2 * jx)

/-- `push_ey_pml_current`, 3-D branch: weights from `sigjx[j-xlo]` and
`sigjz[l-zlo]`. -/
def push_ey_pml_current3D (sigjx sigjz : ℤ → ℚ) (xlo zlo j l : ℤ)
    (Ey0 Ey1 jy mu_c2_dt : ℚ) : ℚ × ℚ :=
  let a := pml_split_alphas (sigjx (j - xlo)) (sigjz (l - zlo))
  (Ey0 - mu_c2_dt * a.1 * jy, Ey1 - mu_c2_dt * a.2 * jy)

/-- `push_ez_pml_current`, 3-D branch: weights from `sigjx[j-xlo]` and
`sigjy[k-ylo]`. -/
def push_ez_pml_current3D (sigjx sigjy : ℤ → ℚ) (xlo ylo j k : ℤ)
    (Ez0 Ez1 jz mu_c2_dt : ℚ) : ℚ × ℚ :=
  let a := pml_split_alphas (sigjx (j - xlo)) (sigjy (k - ylo))
  (Ez0 - mu_c2_dt * a.1 * jz, Ez1 - mu_c2_dt * a.2 * jz)

/-- `push_ex_pml_current`, 2-D branch:
`Ex(j,k,l,1) = Ex(j,k,l,1) - mu_c2_dt*jx(j,k,l)`; split component 0 is left
unchanged.  The pair holds the two split sub-components of Ex at the cell. -/
def push_ex_pml_current2D (Ex0 Ex1 jx mu_c2_dt : ℚ) : ℚ × ℚ :=
  (Ex0, Ex1 - mu_c2_dt * jx)

/-- `push_ey_pml_current`, 2-D branch: both split sub-components receive
`0.5*mu_c2_dt*jy`. -/
def push_ey_pml_current2D (Ey0 Ey1 jy mu_c2_dt : ℚ) : ℚ × ℚ :=
  (Ey0 - 1/2 * mu_c2_dt * jy, Ey1 - 1/2 * mu_c2_dt * jy)

/-- `push_ez_pml_current`, 2-D branch:
`Ez(j,k,l,0) = Ez(j,k,l,0) - mu_c2_dt*jz(j,k,l)`; split component 1 is left
unchanged. -/
def push_ez_pml_current2D (Ez0 Ez1 jz mu_c2_dt : ℚ) : ℚ × ℚ :=
  (Ez0 - mu_c2_dt * jz, Ez1)

/-- Compile-time dimensionality of the Cartesian Yee derivative family
(`WARPX_DIM_3D` vs `WARPX_DIM_XZ`). -/
inductive WarpXDim
| threeD
| xz
deriving DecidableEq

/-- `CartesianYeeAlgorithm::UpwardDy`: in 3-D,
`inv_dy*(F(i,j+1,k,ncomp) - F(i,j,k,ncomp))` with `inv_dy = coefs_y[0]`; in
the reduced 2-D x-z configuration the y derivative is 0. -/
def CartesianYee_UpwardDy (dim : WarpXDim) (F : ℤ → ℤ → ℤ → ℕ → ℚ)
    (coefs_y : ℕ → ℚ) (i j k : ℤ) (ncomp : ℕ) : ℚ :=
  match dim with
  | WarpXDim.threeD => coefs_y 0 * (F i (j+1) k ncomp - F i j k ncomp)
  | WarpXDim.xz => 0

/-- `CartesianYeeAlgorithm::DownwardDy`: in 3-D,
`inv_dy*(F(i,j,k,ncomp) - F(i,j-1,k,ncomp))`; in the reduced 2-D x-z
configuration the y derivative is 0. -/
def CartesianYee_DownwardDy (dim : WarpXDim) (F : ℤ → ℤ → ℤ → ℕ → ℚ)
    (coefs_y : ℕ → ℚ) (i j k : ℤ) (ncomp : ℕ) : ℚ :=
  match dim with
  | WarpXDim.threeD => coefs_y 0 * (F i j k ncomp - F i (j-1) k ncomp)
  | WarpXDim.xz => 0

/-- The guarded Cartesian-to-polar direction conversion used at every RZ
deposition site (mid-step radius in `doDepositionShapeN`, new/mid/old radii
in `doEsirkepovDepositionShapeN`): when the radius `r` is strictly positive
the direction is `(x/r, y/r)`; otherwise the guarded branch yields
`(costheta, sintheta) = (1, 0)` and no division is performed.  The radius
argument stands for `std::sqrt(x*x + y*y)`, characterized by `0 ≤ r` and
`r^2 = x^2 + y^2` in the theorems. -/
def rz_polar_direction (x y r : ℚ) : ℚ × ℚ :=
  if 0 < r then (x / r, y / r) else (1, 0)

/-- The azimuthal mode indices visited by the RZ mode loops of
CurrentDeposition.H: `for (imode=1; imode < n_rz_azimuthal_modes; imode++)`. -/
def rz_mode_indices (n_rz_azimuthal_modes : ℤ) : List ℤ :=
  (List.range (n_rz_azimuthal_modes - 1).toNat).map (fun t : ℕ => 1 + (t : ℤ))

/-- The real scalar factor of the mode-`imode` azimuthal current `djt_cmplx`
in `doEsirkepovDepositionShapeN`:
`-2*(i_new-1+i+xmin*dxi)*wq*invdtdx/imode` (the remaining factor is the
complex combination of the three `e^{i m theta}` phases). -/
def djt_mode_coeff (radial_pos wq invdtdx : ℚ) (imode : ℤ) : ℚ :=
  -2 * radial_pos * wq * invdtdx / (imode : ℚ)

/-- Concrete Esirkepov input whose x displacement spans three cells in one
step (`x_new = 1/4`, `x_old = 13/4`), exceeding the order+3 window of the
shape-factor arrays. -/
def esirkWideP : Esirk2D :=
  { dt := 1, dxv := 1, dzv := 1, xmin := 0, zmin := 0, q := 1, wp := 1,
    ion := none, vx := -3, vy := 0, vz := 0, xp := 1/4, zp := 1/4 }

/-- Concrete stationary Esirkepov input at fractional offset 3/10 along both
axes (old and new leftmost indices coincide). -/
def esirkTrimP : Esirk2D :=
  { dt := 1, dxv := 1, dzv := 1, xmin := 0, zmin := 0, q := 1, wp := 1,
    ion := none, vx := 0, vy := 0, vz := 0, xp := 3/10, zp := 3/10 }

/-- Concrete slowly moving Esirkepov input staying within one cell per
step. -/
def esirkWitP : Esirk2D :=
  { dt := 1, dxv := 1, dzv := 1, xmin := 0, zmin := 0, q := 1, wp := 1,
    ion := none, vx := 1/4, vy := 1/8, vz := 1/4, xp := 1/2, zp := 1/2 }

/-- Concrete direct-deposition input at rest along x (`vx = 0`), all
components node-centered. -/
def directRestP : Direct2D :=
  { dt := 1, dxv := 1, dzv := 1, xmin := 0, zmin := 0, q := 1, wp := 1,
    ion := none, vx := 0, vy := 1, vz := 1, xp := 9/10, zp := 9/10,
    jx_nodal_x := true, jx_nodal_z := true, jy_nodal_x := true,
    jy_nodal_z := true, jz_nodal_x := true, jz_nodal_z := true,
    lox := 0, loz := 0 }

/-- Concrete direct-deposition input with nonzero velocity components and
interior sub-cell offsets for both staggering styles (`xmid = zmid = 2/5`). -/
def directWitP : Direct2D :=
  { dt := 1, dxv := 1, dzv := 1, xmin := 0, zmin := 0, q := 1, wp := 1,
    ion := none, vx := 1, vy := 1, vz := 1, xp := 9/10, zp := 9/10,
    jx_nodal_x := true, jx_nodal_z := true, jy_nodal_x := false,
    jy_nodal_z := false, jz_nodal_x := true, jz_nodal_z := false,
    lox := 0, loz := 0 }

/-- General finite-sum helper: split off the top element of an integer
interval sum. -/
theorem sum_Icc_top (a b : ℤ) (h : a ≤ b) (f : ℤ → ℚ) :
    ∑ c ∈ Finset.Icc a b, f c = (∑ c ∈ Finset.Icc a (b-1), f c) + f b := by
  have h2 : Finset.Icc a b = insert b (Finset.Icc a (b-1)) := by
    ext x
    simp only [Finset.mem_Icc, Finset.mem_insert]
    omega
  rw [h2, Finset.sum_insert (by simp only [Finset.mem_Icc]; omega)]
  ring

/-- General finite-sum helper: split off the bottom element of an integer
interval sum. -/
theorem sum_Icc_bot (a b : ℤ) (h : a ≤ b) (f : ℤ → ℚ) :
    ∑ c ∈ Finset.Icc a b, f c = f a + ∑ c ∈ Finset.Icc (a+1) b, f c := by
  have h2 : Finset.Icc a b = insert a (Finset.Icc (a+1) b) := by
    ext x
    simp only [Finset.mem_Icc, Finset.mem_insert]
    omega
  rw [h2, Finset.sum_insert (by simp only [Finset.mem_Icc]; omega)]

/-- A kernel supported on slots `0..M` with total weight 1 sums to 1 over
any integer interval that covers its shifted support. -/
theorem ker_shift_sum_one (M : ℕ) (s : ℤ → ℚ)
    (hsupp : ∀ i : ℤ, i < 0 ∨ (M:ℤ) < i → s i = 0)
    (hsum : ∑ i ∈ Finset.Icc (0:ℤ) (M:ℤ), s i = 1)
    (base A B : ℤ) (hA : A ≤ base) (hB : base + (M:ℤ) ≤ B) :
    ∑ c ∈ Finset.Icc A B, s (c - base) = 1 := by
  have hmap : (Finset.Icc (A - base) (B - base)).map (addRightEmbedding base)
      = Finset.Icc A B := by
    rw [Finset.map_add_right_Icc]
    congr 1 <;> ring
  rw [← hmap, Finset.sum_map]
  simp only [addRightEmbedding_apply, add_sub_cancel_right]
  rw [← hsum]
  symm
  apply Finset.sum_subset
  · intro x hx
    simp only [Finset.mem_Icc] at hx ⊢
    omega
  · intro x _ hx
    simp only [Finset.mem_Icc] at hx
    exact hsupp x (by omega)

/-- Order-0 weights vanish outside slot 0. -/
theorem sf_weights0_supp (i : ℤ) (h : i < 0 ∨ 0 < i) : sf_weights0 i = 0 := by
  unfold sf_weights0
  rw [if_neg (by omega)]

/-- Order-1 weights vanish outside slots 0..1. -/
theorem sf_weights1_supp (f : ℚ) (i : ℤ) (h : i < 0 ∨ 1 < i) :
    sf_weights1 f i = 0 := by
  unfold sf_weights1
  rw [if_neg (by omega), if_neg (by omega)]

/-- Order-2 weights vanish outside slots 0..2. -/
theorem sf_weights2_supp (f : ℚ) (i : ℤ) (h : i < 0 ∨ 2 < i) :
    sf_weights2 f i = 0 := by
  unfold sf_weights2
  rw [if_neg (by omega), if_neg (by omega), if_neg (by omega)]

/-- Order-3 weights vanish outside slots 0..3. -/
theorem sf_weights3_supp (f : ℚ) (i : ℤ) (h : i < 0 ∨ 3 < i) :
    sf_weights3 f i = 0 := by
  unfold sf_weights3
  rw [if_neg (by omega), if_neg (by omega), if_neg (by omega), if_neg (by omega)]

/-- The shape-factor weights of every implemented order vanish outside slots
`0..N`. -/
theorem csf_supp (N : ℕ) (x : ℚ) (i : ℤ) (h : i < 0 ∨ (N:ℤ) < i) :
    (compute_shape_factor N x).2 i = 0 := by
  match N with
  | 0 => exact sf_weights0_supp i (by exact_mod_cast h)
  | 1 => exact sf_weights1_supp _ i (by exact_mod_cast h)
  | 2 => exact sf_weights2_supp _ i (by exact_mod_cast h)
  | 3 => exact sf_weights3_supp _ i (by exact_mod_cast h)
  | (_ + 4) => rfl

/-- Explicit form of the integer interval `[0,1]`. -/
theorem Icc_explicit1 : Finset.Icc (0:ℤ) 1 = {0, 1} := by decide

/-- Explicit form of the integer interval `[0,2]`. -/
theorem Icc_explicit2 : Finset.Icc (0:ℤ) 2 = {0, 1, 2} := by decide

/-- Explicit form of the integer interval `[0,3]`. -/
theorem Icc_explicit3 : Finset.Icc (0:ℤ) 3 = {0, 1, 2, 3} := by decide

/-- Partition of unity for the order-0 kernel. -/
theorem sf_weights0_sum : ∑ i ∈ Finset.Icc (0:ℤ) 0, sf_weights0 i = 1 := by
  simp [sf_weights0]

/-- Partition of unity for the order-1 kernel. -/
theorem sf_weights1_sum (f : ℚ) :
    ∑ i ∈ Finset.Icc (0:ℤ) 1, sf_weights1 f i = 1 := by
  rw [Icc_explicit1, Finset.sum_insert (by decide), Finset.sum_singleton]
  simp only [sf_weights1]
  norm_num

/-- Partition of unity for the order-2 kernel. -/
theorem sf_weights2_sum (f : ℚ) :
    ∑ i ∈ Finset.Icc (0:ℤ) 2, sf_weights2 f i = 1 := by
  rw [Icc_explicit2, Finset.sum_insert (by decide),
    Finset.sum_insert (by decide), Finset.sum_singleton]
  simp only [sf_weights2]
  norm_num
  ring

/-- Partition of unity for the order-3 kernel. -/
theorem sf_weights3_sum (f : ℚ) :
    ∑ i ∈ Finset.Icc (0:ℤ) 3, sf_weights3 f i = 1 := by
  rw [Icc_explicit3, Finset.sum_insert (by decide),
    Finset.sum_insert (by decide), Finset.sum_insert (by decide),
    Finset.sum_singleton]
  simp only [sf_weights3]
  norm_num
  ring

/-- Partition of unity for every implemented deposition order. -/
theorem csf_sum_one (N : ℕ) (hN : N ≤ 3) (x : ℚ) :
    ∑ i ∈ Finset.Icc (0:ℤ) (N:ℤ), (compute_shape_factor N x).2 i = 1 := by
  interval_cases N
  · exact_mod_cast sf_weights0_sum
  · exact_mod_cast sf_weights1_sum (x - ⌊x⌋)
  · exact_mod_cast sf_weights2_sum (x - ⌊x + 1/2⌋)
  · exact_mod_cast sf_weights3_sum (x - ⌊x⌋)

/-- Fractional offset of the order-1 kernel: weight of slot 0. -/
theorem csf1_w0 (y : ℚ) : (compute_shape_factor 1 y).2 0 = 1 - (y - ⌊y⌋) := by
  simp [compute_shape_factor, sf_weights1]

/-- Fractional offset of the order-1 kernel: weight of slot 1. -/
theorem csf1_w1 (y : ℚ) : (compute_shape_factor 1 y).2 1 = y - ⌊y⌋ := by
  simp [compute_shape_factor, sf_weights1]

/-- The order-1 weight of slot 0 is always strictly positive. -/
theorem csf1_w0_pos (y : ℚ) : 0 < (compute_shape_factor 1 y).2 0 := by
  rw [csf1_w0]
  have h := Int.fract_lt_one y
  unfold Int.fract at h
  linarith

/-- The order-1 weight of slot 1 is nonnegative. -/
theorem csf1_w1_nonneg (y : ℚ) : 0 ≤ (compute_shape_factor 1 y).2 1 := by
  rw [csf1_w1]
  have h := Int.fract_nonneg y
  unfold Int.fract at h
  linarith

/-- C2 — PML split consistency: for every pair of damping-profile values the
two apportioning weights sum to exactly 1; whenever both damping
coefficients are zero the guarded branch yields exactly 0.5 and 0.5 (no
division); and each 3-D current push applies exactly these weights to the
two split sub-components. -/
theorem pml_split_weights_spec :
    (∀ s1 s2 : ℚ,
      (pml_split_alphas s1 s2).1 + (pml_split_alphas s1 s2).2 = 1) ∧
    (∀ s1 s2 : ℚ, s1 = 0 → s2 = 0 → pml_split_alphas s1 s2 = (1/2, 1/2)) ∧
    (∀ (sigjy sigjz : ℤ → ℚ) (ylo zlo k l : ℤ) (E0 E1 jx mu : ℚ),
      push_ex_pml_current3D sigjy sigjz ylo zlo k l E0 E1 jx mu
        = (E0 - mu * (pml_split_alphas (sigjy (k - ylo)) (sigjz (l - zlo))).1 * jx,
           E1 - mu * (pml_split_alphas (sigjy (k - ylo)) (sigjz (l - zlo))).2 * jx)) ∧
    (∀ (sigjx sigjz : ℤ → ℚ) (xlo zlo j l : ℤ) (E0 E1 jy mu : ℚ),
      push_ey_pml_current3D sigjx sigjz xlo zlo j l E0 E1 jy mu
        = (E0 - mu * (pml_split_alphas (sigjx (j - xlo)) (sigjz (l - zlo))).1 * jy,
           E1 - mu * (pml_split_alphas (sigjx (j - xlo)) (sigjz (l - zlo))).2 * jy)) ∧
    (∀ (sigjx sigjy : ℤ → ℚ) (xlo ylo j k : ℤ) (E0 E1 jz mu : ℚ),
      push_ez_pml_current3D sigjx sigjy xlo ylo j k E0 E1 jz mu
        = (E0 - mu * (pml_split_alphas (sigjx (j - xlo)) (sigjy (k - ylo))).1 * jz,
           E1 - mu * (pml_split_alphas (sigjx (j - xlo)) (sigjy (k - ylo))).2 * jz)) := by
  refine ⟨?_, ?_, fun _ _ _ _ _ _ _ _ _ _ => rfl,
    fun _ _ _ _ _ _ _ _ _ _ => rfl, fun _ _ _ _ _ _ _ _ _ _ => rfl⟩
  · intro s1 s2
    unfold pml_split_alphas
    split_ifs with h
    · norm_num
    · rw [div_add_div_same, div_self h]
  · intro s1 s2 h1 h2
    unfold pml_split_alphas
    rw [if_pos (by rw [h1, h2]; ring)]

/-- Witness for C2: both damping coefficients zero gives the exact 0.5/0.5
split, and the weights sum to 1. -/
theorem pml_split_weights_spec_witness :
    pml_split_alphas 0 0 = (1/2, 1/2) ∧
    (pml_split_alphas 0 0).1 + (pml_split_alphas 0 0).2 = 1 :=
  ⟨pml_split_weights_spec.2.1 0 0 rfl rfl, pml_split_weights_spec.1 0 0⟩

/-- C4 — shape-factor partition of unity: for every deposition order 0..3
and every coordinate, `compute_shape_factor` returns an integer leftmost
index together with N+1 weights (slots 0..N) that sum to exactly 1. -/
theorem shape_factor_weights_sum_one (N : ℕ) (hN : N ≤ 3) (x : ℚ) :
    ∑ i ∈ Finset.Icc (0:ℤ) (N:ℤ), (compute_shape_factor N x).2 i = 1 :=
  csf_sum_one N hN x

/-- Witness for C4 at order 1 and coordinate 1/3. -/
theorem shape_factor_weights_sum_one_witness :
    1 ≤ 3 ∧
    ∑ i ∈ Finset.Icc (0:ℤ) ((1:ℕ):ℤ), (compute_shape_factor 1 (1/3)).2 i = 1 :=
  ⟨by norm_num, shape_factor_weights_sum_one 1 (by norm_num) (1/3)⟩

/-- C5 — RZ radius guard: whenever the radius (the square root of
`x^2 + y^2`, characterized by the two hypotheses) is not strictly positive,
the guarded branch yields `(costheta, sintheta) = (1, 0)`; and in every case
the conversion produces a well-defined unit direction (so no NaN/Inf can
arise from this conversion). -/
theorem rz_polar_guard_spec (x y r : ℚ) (hr : 0 ≤ r) (hrsq : r^2 = x^2 + y^2) :
    (¬ 0 < r → rz_polar_direction x y r = (1, 0)) ∧
    (rz_polar_direction x y r).1 ^ 2 + (rz_polar_direction x y r).2 ^ 2 = 1 := by
  constructor
  · intro h
    unfold rz_polar_direction
    rw [if_neg h]
  · unfold rz_polar_direction
    split_ifs with h
    · have hr0 : r ≠ 0 := ne_of_gt h
      field_simp
      linarith
    · norm_num

/-- Witness for C5 at the origin (radius exactly zero). -/
theorem rz_polar_guard_spec_witness :
    (0:ℚ) ≤ 0 ∧ ((0:ℚ)^2 = 0^2 + 0^2) ∧ rz_polar_direction 0 0 0 = (1, 0) :=
  ⟨by norm_num, by norm_num,
    (rz_polar_guard_spec 0 0 0 (by norm_num) (by norm_num)).1 (by norm_num)⟩

/-- Counterexample to C6 as stated: in the 2-D `push_ey_pml_current` both
split sub-components of Ey change (each by half the current contribution),
so the full contribution `-mu_c2_dt*jy` is not applied to exactly one split
sub-component with weight 1. -/
theorem pml_2d_single_weight_counterexample :
    (push_ey_pml_current2D 0 0 1 1).1 ≠ 0 ∧
    (push_ey_pml_current2D 0 0 1 1).2 ≠ 0 ∧
    (push_ey_pml_current2D 0 0 1 1).2 ≠ 0 - 1 * 1 := by
  refine ⟨?_, ?_, ?_⟩ <;> norm_num [push_ey_pml_current2D]

/-- C6 amended — in the reduced 2-D variant, `push_ex_pml_current` and
`push_ez_pml_current` apply the full contribution `-mu_c2_dt*j` with weight
1 to exactly one split sub-component (component 1 of Ex, component 0 of Ez),
leaving the other unchanged, while `push_ey_pml_current` splits the full
contribution evenly (0.5/0.5) over its two sub-components; in all three, the
total applied weight is 1. -/
theorem pml_2d_reduced_weights (E0 E1 jv mu : ℚ) :
    push_ex_pml_current2D E0 E1 jv mu = (E0, E1 - mu * jv) ∧
    push_ez_pml_current2D E0 E1 jv mu = (E0 - mu * jv, E1) ∧
    push_ey_pml_current2D E0 E1 jv mu
      = (E0 - 1/2 * mu * jv, E1 - 1/2 * mu * jv) ∧
    (push_ey_pml_current2D E0 E1 jv mu).1 + (push_ey_pml_current2D E0 E1 jv mu).2
      = E0 + E1 - mu * jv := by
  refine ⟨rfl, rfl, rfl, ?_⟩
  unfold push_ey_pml_current2D
  ring

/-- C9 — in the reduced 2-D x-z configuration both Yee derivative operators
along y return exactly 0 for every field array, every index and every
coefficient array. -/
theorem yee_dy_zero_in_2d (F : ℤ → ℤ → ℤ → ℕ → ℚ) (coefs_y : ℕ → ℚ)
    (i j k : ℤ) (ncomp : ℕ) :
    CartesianYee_UpwardDy WarpXDim.xz F coefs_y i j k ncomp = 0 ∧
    CartesianYee_DownwardDy WarpXDim.xz F coefs_y i j k ncomp = 0 :=
  ⟨rfl, rfl⟩

/-- C10 — the RZ azimuthal-mode loop ranges over `1 <= imode < n`, so the
division by `imode` in the mode-m azimuthal current factor never has a zero
divisor: multiplying the coefficient back by `imode` recovers the undivided
numerator. -/
theorem rz_mode_divisor_positive (n imode : ℤ)
    (h : imode ∈ rz_mode_indices n) :
    1 ≤ imode ∧ imode < n ∧
    ∀ a b c3 : ℚ, djt_mode_coeff a b c3 imode * (imode : ℚ) = -2 * a * b * c3 := by
  unfold rz_mode_indices at h
  rw [List.mem_map] at h
  obtain ⟨t, ht, rfl⟩ := h
  rw [List.mem_range] at ht
  refine ⟨by omega, by omega, ?_⟩
  intro a b c3
  unfold djt_mode_coeff
  have hne : ((1 + (t:ℤ) : ℤ) : ℚ) ≠ 0 := by
    push_cast
    positivity
  rw [div_mul_cancel₀ _ hne]

/-- Witness for C10: with 3 retained modes, mode index 1 is visited and its
division is by the nonzero integer 1. -/
theorem rz_mode_divisor_positive_witness :
    ((1:ℤ) ∈ rz_mode_indices 3) ∧
    (1 ≤ (1:ℤ) ∧ (1:ℤ) < 3 ∧
      ∀ a b c3 : ℚ, djt_mode_coeff a b c3 1 * ((1:ℤ) : ℚ) = -2 * a * b * c3) :=
  ⟨by decide, rz_mode_divisor_positive 3 1 (by decide)⟩

/-- The order-1 weights of slots 0 and 1 sum to 1. -/
theorem csf1_sum01 (y : ℚ) :
    (compute_shape_factor 1 y).2 0 + (compute_shape_factor 1 y).2 1 = 1 := by
  rw [csf1_w0, csf1_w1]
  ring

/-- Explicit form of a two-element integer interval. -/
theorem Icc_pair (a : ℤ) : Finset.Icc a (a+1) = {a, a+1} := by
  ext x
  simp only [Finset.mem_Icc, Finset.mem_insert, Finset.mem_singleton]
  omega

/-- Window specification of an order-1 product deposit: any function that
adds `sxf[ix]*szf[iz]*wqv` over the 2x2 window anchored at `(A, B)` (with
both shape arrays coming from the order-1 kernel) deposits the
bilinear-product weights there, sums to `wqv` over the window, and — when
the slot-1 weights and the current factor are nonzero — is nonzero exactly
on the 4 window cells. -/
theorem order1_window_spec (sxf szf : ℤ → ℚ) (yx yz : ℚ) (A B : ℤ)
    (wqv : ℚ) (D : ℤ × ℤ → ℚ)
    (hsx : sxf = (compute_shape_factor 1 yx).2)
    (hsz : szf = (compute_shape_factor 1 yz).2)
    (hD : ∀ c : ℤ × ℤ, D c =
      if 0 ≤ c.1 - A ∧ c.1 - A ≤ 1 ∧ 0 ≤ c.2 - B ∧ c.2 - B ≤ 1 then
        sxf (c.1 - A) * szf (c.2 - B) * wqv else 0) :
    (sxf 1 ≠ 0 → szf 1 ≠ 0 → wqv ≠ 0 →
      ∀ c : ℤ × ℤ, D c ≠ 0 ↔
        ((c.1 = A ∨ c.1 = A + 1) ∧ (c.2 = B ∨ c.2 = B + 1))) ∧
    (∀ ix iz : ℤ, 0 ≤ ix → ix ≤ 1 → 0 ≤ iz → iz ≤ 1 →
      D (A + ix, B + iz) = sxf ix * szf iz * wqv) ∧
    (∑ c ∈ Finset.Icc A (A+1) ×ˢ Finset.Icc B (B+1), D c = wqv) := by
  have hsx0 : sxf 0 ≠ 0 := by rw [hsx]; exact (csf1_w0_pos yx).ne'
  have hsz0 : szf 0 ≠ 0 := by rw [hsz]; exact (csf1_w0_pos yz).ne'
  have hxsum : sxf 0 + sxf 1 = 1 := by rw [hsx]; exact csf1_sum01 yx
  have hzsum : szf 0 + szf 1 = 1 := by rw [hsz]; exact csf1_sum01 yz
  have hweights : ∀ ix iz : ℤ, 0 ≤ ix → ix ≤ 1 → 0 ≤ iz → iz ≤ 1 →
      D (A + ix, B + iz) = sxf ix * szf iz * wqv := by
    intro ix iz h1 h2 h3 h4
    rw [hD]
    simp only
    rw [show A + ix - A = ix from by ring, show B + iz - B = iz from by ring]
    rw [if_pos ⟨h1, h2, h3, h4⟩]
  refine ⟨?_, hweights, ?_⟩
  · intro hx1 hz1 hw c
    rw [hD]
    by_cases hcond : 0 ≤ c.1 - A ∧ c.1 - A ≤ 1 ∧ 0 ≤ c.2 - B ∧ c.2 - B ≤ 1
    · rw [if_pos hcond]
      refine iff_of_true ?_ (by omega)
      have hxne : sxf (c.1 - A) ≠ 0 := by
        rcases (by omega : c.1 - A = 0 ∨ c.1 - A = 1) with h | h <;> rw [h]
        · exact hsx0
        · exact hx1
      have hzne : szf (c.2 - B) ≠ 0 := by
        rcases (by omega : c.2 - B = 0 ∨ c.2 - B = 1) with h | h <;> rw [h]
        · exact hsz0
        · exact hz1
      exact mul_ne_zero (mul_ne_zero hxne hzne) hw
    · rw [if_neg hcond]
      exact iff_of_false (by simp) (by omega)
  · rw [Finset.sum_product, Icc_pair A, Icc_pair B]
    rw [Finset.sum_insert (by simp), Finset.sum_singleton]
    rw [Finset.sum_insert (by simp), Finset.sum_singleton,
        Finset.sum_insert (by simp), Finset.sum_singleton]
    have t00 : D (A, B) = sxf 0 * szf 0 * wqv := by
      have := hweights 0 0 le_rfl zero_le_one le_rfl zero_le_one
      simpa using this
    have t01 : D (A, B + 1) = sxf 0 * szf 1 * wqv := by
      have := hweights 0 1 le_rfl zero_le_one zero_le_one le_rfl
      simpa using this
    have t10 : D (A + 1, B) = sxf 1 * szf 0 * wqv := by
      have := hweights 1 0 zero_le_one le_rfl le_rfl zero_le_one
      simpa using this
    have t11 : D (A + 1, B + 1) = sxf 1 * szf 1 * wqv := by
      have := hweights 1 1 zero_le_one le_rfl zero_le_one le_rfl
      simpa using this
    rw [t00, t01, t10, t11]
    calc sxf 0 * szf 0 * wqv + sxf 0 * szf 1 * wqv +
          (sxf 1 * szf 0 * wqv + sxf 1 * szf 1 * wqv)
        = (sxf 0 + sxf 1) * (szf 0 + szf 1) * wqv := by ring
      _ = 1 * 1 * wqv := by rw [hxsum, hzsum]
      _ = wqv := by ring

/-- C3 amended — single-particle direct deposition footprint at order 1
(2-D x-z): for each current component, the deposited value at window offset
`(ix, iz)` is the bilinear product `sx[ix]*sz[iz]` times the component's
charge-weighted current factor, the total deposited current over the 2x2
window starting at the returned leftmost indices equals `q*w*v/cell_volume`
for that component's velocity `v`, and — provided the component's slot-1
shape weights and its current factor `wq*invvol*v` are nonzero — the
contribution is nonzero on exactly those 4 cells. -/
theorem direct_deposition_order1_footprint (p : Direct2D) :
    ((Direct2D.sx_jx 1 p 1 ≠ 0 → Direct2D.sz_jx 1 p 1 ≠ 0 → Direct2D.wqx p ≠ 0 →
      ∀ c : ℤ × ℤ, Direct2D.jxDep 1 p c ≠ 0 ↔
        ((c.1 = p.lox + Direct2D.j_jx 1 p ∨ c.1 = p.lox + Direct2D.j_jx 1 p + 1) ∧
         (c.2 = p.loz + Direct2D.l_jx 1 p ∨ c.2 = p.loz + Direct2D.l_jx 1 p + 1))) ∧
     (∀ ix iz : ℤ, 0 ≤ ix → ix ≤ 1 → 0 ≤ iz → iz ≤ 1 →
       Direct2D.jxDep 1 p
           (p.lox + Direct2D.j_jx 1 p + ix, p.loz + Direct2D.l_jx 1 p + iz)
         = Direct2D.sx_jx 1 p ix * Direct2D.sz_jx 1 p iz * Direct2D.wqx p) ∧
     (∑ c ∈ Finset.Icc (p.lox + Direct2D.j_jx 1 p) (p.lox + Direct2D.j_jx 1 p + 1) ×ˢ
          Finset.Icc (p.loz + Direct2D.l_jx 1 p) (p.loz + Direct2D.l_jx 1 p + 1),
        Direct2D.jxDep 1 p c = Direct2D.wq p * p.vx * Direct2D.invvol p)) ∧
    ((Direct2D.sx_jy 1 p 1 ≠ 0 → Direct2D.sz_jy 1 p 1 ≠ 0 → Direct2D.wqy p ≠ 0 →
      ∀ c : ℤ × ℤ, Direct2D.jyDep 1 p c ≠ 0 ↔
        ((c.1 = p.lox + Direct2D.j_jy 1 p ∨ c.1 = p.lox + Direct2D.j_jy 1 p + 1) ∧
         (c.2 = p.loz + Direct2D.l_jy 1 p ∨ c.2 = p.loz + Direct2D.l_jy 1 p + 1))) ∧
     (∀ ix iz : ℤ, 0 ≤ ix → ix ≤ 1 → 0 ≤ iz → iz ≤ 1 →
       Direct2D.jyDep 1 p
           (p.lox + Direct2D.j_jy 1 p + ix, p.loz + Direct2D.l_jy 1 p + iz)
         = Direct2D.sx_jy 1 p ix * Direct2D.sz_jy 1 p iz * Direct2D.wqy p) ∧
     (∑ c ∈ Finset.Icc (p.lox + Direct2D.j_jy 1 p) (p.lox + Direct2D.j_jy 1 p + 1) ×ˢ
          Finset.Icc (p.loz + Direct2D.l_jy 1 p) (p.loz + Direct2D.l_jy 1 p + 1),
        Direct2D.jyDep 1 p c = Direct2D.wq p * p.vy * Direct2D.invvol p)) ∧
    ((Direct2D.sx_jz 1 p 1 ≠ 0 → Direct2D.sz_jz 1 p 1 ≠ 0 → Direct2D.wqz p ≠ 0 →
      ∀ c : ℤ × ℤ, Direct2D.jzDep 1 p c ≠ 0 ↔
        ((c.1 = p.lox + Direct2D.j_jz 1 p ∨ c.1 = p.lox + Direct2D.j_jz 1 p + 1) ∧
         (c.2 = p.loz + Direct2D.l_jz 1 p ∨ c.2 = p.loz + Direct2D.l_jz 1 p + 1))) ∧
     (∀ ix iz : ℤ, 0 ≤ ix → ix ≤ 1 → 0 ≤ iz → iz ≤ 1 →
       Direct2D.jzDep 1 p
           (p.lox + Direct2D.j_jz 1 p + ix, p.loz + Direct2D.l_jz 1 p + iz)
         = Direct2D.sx_jz 1 p ix * Direct2D.sz_jz 1 p iz * Direct2D.wqz p) ∧
     (∑ c ∈ Finset.Icc (p.lox + Direct2D.j_jz 1 p) (p.lox + Direct2D.j_jz 1 p + 1) ×ˢ
          Finset.Icc (p.loz + Direct2D.l_jz 1 p) (p.loz + Direct2D.l_jz 1 p + 1),
        Direct2D.jzDep 1 p c = Direct2D.wq p * p.vz * Direct2D.invvol p)) := by
  obtain ⟨yx1, hsx1⟩ : ∃ y, Direct2D.sx_jx 1 p = (compute_shape_factor 1 y).2 := by
    unfold Direct2D.sx_jx Direct2D.sx_node Direct2D.sx_cell
    split_ifs
    · exact ⟨p.xmid, rfl⟩
    · exact ⟨p.xmid - 1/2, rfl⟩
  obtain ⟨yz1, hsz1⟩ : ∃ y, Direct2D.sz_jx 1 p = (compute_shape_factor 1 y).2 := by
    unfold Direct2D.sz_jx Direct2D.sz_node Direct2D.sz_cell
    split_ifs
    · exact ⟨p.zmid, rfl⟩
    · exact ⟨p.zmid - 1/2, rfl⟩
  obtain ⟨yx2, hsx2⟩ : ∃ y, Direct2D.sx_jy 1 p = (compute_shape_factor 1 y).2 := by
    unfold Direct2D.sx_jy Direct2D.sx_node Direct2D.sx_cell
    split_ifs
    · exact ⟨p.xmid, rfl⟩
    · exact ⟨p.xmid - 1/2, rfl⟩
  obtain ⟨yz2, hsz2⟩ : ∃ y, Direct2D.sz_jy 1 p = (compute_shape_factor 1 y).2 := by
    unfold Direct2D.sz_jy Direct2D.sz_node Direct2D.sz_cell
    split_ifs
    · exact ⟨p.zmid, rfl⟩
    · exact ⟨p.zmid - 1/2, rfl⟩
  obtain ⟨yx3, hsx3⟩ : ∃ y, Direct2D.sx_jz 1 p = (compute_shape_factor 1 y).2 := by
    unfold Direct2D.sx_jz Direct2D.sx_node Direct2D.sx_cell
    split_ifs
    · exact ⟨p.xmid, rfl⟩
    · exact ⟨p.xmid - 1/2, rfl⟩
  obtain ⟨yz3, hsz3⟩ : ∃ y, Direct2D.sz_jz 1 p = (compute_shape_factor 1 y).2 := by
    unfold Direct2D.sz_jz Direct2D.sz_node Direct2D.sz_cell
    split_ifs
    · exact ⟨p.zmid, rfl⟩
    · exact ⟨p.zmid - 1/2, rfl⟩
  have hDx : ∀ c : ℤ × ℤ, Direct2D.jxDep 1 p c =
      if 0 ≤ c.1 - (p.lox + Direct2D.j_jx 1 p) ∧
         c.1 - (p.lox + Direct2D.j_jx 1 p) ≤ 1 ∧
         0 ≤ c.2 - (p.loz + Direct2D.l_jx 1 p) ∧
         c.2 - (p.loz + Direct2D.l_jx 1 p) ≤ 1 then
        Direct2D.sx_jx 1 p (c.1 - (p.lox + Direct2D.j_jx 1 p)) *
          Direct2D.sz_jx 1 p (c.2 - (p.loz + Direct2D.l_jx 1 p)) * Direct2D.wqx p
      else 0 := by
    intro c
    simp only [Direct2D.jxDep, sub_sub, Nat.cast_one]
  have hDy : ∀ c : ℤ × ℤ, Direct2D.jyDep 1 p c =
      if 0 ≤ c.1 - (p.lox + Direct2D.j_jy 1 p) ∧
         c.1 - (p.lox + Direct2D.j_jy 1 p) ≤ 1 ∧
         0 ≤ c.2 - (p.loz + Direct2D.l_jy 1 p) ∧
         c.2 - (p.loz + Direct2D.l_jy 1 p) ≤ 1 then
        Direct2D.sx_jy 1 p (c.1 - (p.lox + Direct2D.j_jy 1 p)) *
          Direct2D.sz_jy 1 p (c.2 - (p.loz + Direct2D.l_jy 1 p)) * Direct2D.wqy p
      else 0 := by
    intro c
    simp only [Direct2D.jyDep, sub_sub, Nat.cast_one]
  have hDz : ∀ c : ℤ × ℤ, Direct2D.jzDep 1 p c =
      if 0 ≤ c.1 - (p.lox + Direct2D.j_jz 1 p) ∧
         c.1 - (p.lox + Direct2D.j_jz 1 p) ≤ 1 ∧
         0 ≤ c.2 - (p.loz + Direct2D.l_jz 1 p) ∧
         c.2 - (p.loz + Direct2D.l_jz 1 p) ≤ 1 then
        Direct2D.sx_jz 1 p (c.1 - (p.lox + Direct2D.j_jz 1 p)) *
          Direct2D.sz_jz 1 p (c.2 - (p.loz + Direct2D.l_jz 1 p)) * Direct2D.wqz p
      else 0 := by
    intro c
    simp only [Direct2D.jzDep, sub_sub, Nat.cast_one]
  have bx := order1_window_spec (Direct2D.sx_jx 1 p) (Direct2D.sz_jx 1 p) yx1 yz1
    (p.lox + Direct2D.j_jx 1 p) (p.loz + Direct2D.l_jx 1 p) (Direct2D.wqx p)
    (Direct2D.jxDep 1 p) hsx1 hsz1 hDx
  have by2 := order1_window_spec (Direct2D.sx_jy 1 p) (Direct2D.sz_jy 1 p) yx2 yz2
    (p.lox + Direct2D.j_jy 1 p) (p.loz + Direct2D.l_jy 1 p) (Direct2D.wqy p)
    (Direct2D.jyDep 1 p) hsx2 hsz2 hDy
  have bz := order1_window_spec (Direct2D.sx_jz 1 p) (Direct2D.sz_jz 1 p) yx3 yz3
    (p.lox + Direct2D.j_jz 1 p) (p.loz + Direct2D.l_jz 1 p) (Direct2D.wqz p)
    (Direct2D.jzDep 1 p) hsx3 hsz3 hDz
  refine ⟨⟨bx.1, bx.2.1, ?_⟩, ⟨by2.1, by2.2.1, ?_⟩, ⟨bz.1, bz.2.1, ?_⟩⟩
  · rw [bx.2.2]
    unfold Direct2D.wqx
    ring
  · rw [by2.2.2]
    unfold Direct2D.wqy
    ring
  · rw [bz.2.2]
    unfold Direct2D.wqz
    ring

/-- A current component whose charge-weighted velocity factor vanishes
deposits zero into every cell (direct deposition, x component). -/
theorem jxDep_zero_of_factor (N : ℕ) (p : Direct2D) (c : ℤ × ℤ)
    (hw : Direct2D.wqx p = 0) : Direct2D.jxDep N p c = 0 := by
  unfold Direct2D.jxDep
  split_ifs with h
  · rw [hw, mul_zero]
  · rfl

/-- Counterexample to C3 as stated: for a particle at rest along x
(`vx = 0`) the `jx` current factor is zero, so every cell — including the
first cell of the claimed 2x2 window — receives a zero contribution from
`jx`, and the component is not deposited into exactly 4 cells with nonzero
values. -/
theorem direct_deposition_footprint_counterexample :
    Direct2D.wqx directRestP = 0 ∧
    Direct2D.jxDep 1 directRestP
      (directRestP.lox + Direct2D.j_jx 1 directRestP,
       directRestP.loz + Direct2D.l_jx 1 directRestP) = 0 := by
  have hw : Direct2D.wqx directRestP = 0 := by
    norm_num [Direct2D.wqx, Direct2D.wq, Direct2D.invvol, Direct2D.dxi,
      Direct2D.dzi, directRestP]
  exact ⟨hw, jxDep_zero_of_factor 1 directRestP _ hw⟩

/-- Witness for C3 (amended): a concrete particle with interior offsets and
nonzero velocity for which the `jx` hypotheses hold, whence the exact 4-cell
footprint. -/
theorem direct_deposition_order1_footprint_witness :
    Direct2D.sx_jx 1 directWitP 1 ≠ 0 ∧
    Direct2D.sz_jx 1 directWitP 1 ≠ 0 ∧
    Direct2D.wqx directWitP ≠ 0 ∧
    (∀ c : ℤ × ℤ, Direct2D.jxDep 1 directWitP c ≠ 0 ↔
      ((c.1 = directWitP.lox + Direct2D.j_jx 1 directWitP ∨
        c.1 = directWitP.lox + Direct2D.j_jx 1 directWitP + 1) ∧
       (c.2 = directWitP.loz + Direct2D.l_jx 1 directWitP ∨
        c.2 = directWitP.loz + Direct2D.l_jx 1 directWitP + 1))) := by
  have h1 : Direct2D.sx_jx 1 directWitP 1 ≠ 0 := by
    simp only [Direct2D.sx_jx, Direct2D.sx_node, Direct2D.sx_cell, directWitP]
    rw [if_pos trivial, csf1_w1]
    norm_num [Direct2D.xmid, Direct2D.dxi, Direct2D.dts2dx, directWitP]
  have h2 : Direct2D.sz_jx 1 directWitP 1 ≠ 0 := by
    simp only [Direct2D.sz_jx, Direct2D.sz_node, Direct2D.sz_cell, directWitP]
    rw [if_pos trivial, csf1_w1]
    norm_num [Direct2D.zmid, Direct2D.dzi, Direct2D.dts2dz, directWitP]
  have h3 : Direct2D.wqx directWitP ≠ 0 := by
    norm_num [Direct2D.wqx, Direct2D.wq, Direct2D.invvol, Direct2D.dxi,
      Direct2D.dzi, directWitP]
  exact ⟨h1, h2, h3,
    (direct_deposition_order1_footprint directWitP).1.1 h1 h2 h3⟩

/-- Reindexing an integer-interval sum by a constant shift. -/
theorem sum_reindex (f : ℤ → ℚ) (a b base : ℤ) :
    ∑ i2 ∈ Finset.Icc a b, f (i2 + base)
      = ∑ c2 ∈ Finset.Icc (a + base) (b + base), f c2 := by
  rw [← Finset.map_add_right_Icc, Finset.sum_map]
  simp [addRightEmbedding_apply]

/-- The returned leftmost index of the shifted kernel equals that of the
plain kernel. -/
theorem i_old_eq (N : ℕ) (p : Esirk2D) :
    Esirk2D.i_old N p = (compute_shape_factor N p.x_old).1 := rfl

/-- Slot `idx` of the `sx_new` window holds the new x kernel at absolute
cell `idx + (i_new - 1)`. -/
theorem sx_new_arr_eq (N : ℕ) (p : Esirk2D) (idx : ℤ) :
    Esirk2D.sx_new_arr N p idx
      = Esirk2D.SxN N p (idx + (Esirk2D.i_new N p - 1)) := by
  unfold Esirk2D.sx_new_arr Esirk2D.SxN
  congr 1
  ring

/-- Slot `idx` of the `sx_old` window holds the old x kernel at absolute
cell `idx + (i_new - 1)`. -/
theorem sx_old_arr_eq (N : ℕ) (p : Esirk2D) (idx : ℤ) :
    Esirk2D.sx_old_arr N p idx
      = Esirk2D.SxO N p (idx + (Esirk2D.i_new N p - 1)) := by
  unfold Esirk2D.sx_old_arr Esirk2D.SxO compute_shifted_shape_factor
  dsimp only
  rw [← i_old_eq]
  congr 1
  ring

/-- Slot `idx` of the `sz_new` window holds the new z kernel at absolute
cell `idx + (k_new - 1)`. -/
theorem sz_new_arr_eq (N : ℕ) (p : Esirk2D) (idx : ℤ) :
    Esirk2D.sz_new_arr N p idx
      = Esirk2D.SzN N p (idx + (Esirk2D.k_new N p - 1)) := by
  unfold Esirk2D.sz_new_arr Esirk2D.SzN
  congr 1
  ring

/-- Slot `idx` of the `sz_old` window holds the old z kernel at absolute
cell `idx + (k_new - 1)`. -/
theorem sz_old_arr_eq (N : ℕ) (p : Esirk2D) (idx : ℤ) :
    Esirk2D.sz_old_arr N p idx
      = Esirk2D.SzO N p (idx + (Esirk2D.k_new N p - 1)) := by
  unfold Esirk2D.sz_old_arr Esirk2D.SzO compute_shifted_shape_factor
  have hk : Esirk2D.k_old N p = (compute_shape_factor N p.z_old).1 := rfl
  dsimp only
  rw [← hk]
  congr 1
  ring

/-- The new x kernel vanishes outside its support cells
`i_new .. i_new + N`. -/
theorem SxN_supp (N : ℕ) (p : Esirk2D) (cx : ℤ)
    (h : cx < Esirk2D.i_new N p ∨ Esirk2D.i_new N p + (N:ℤ) < cx) :
    Esirk2D.SxN N p cx = 0 :=
  csf_supp N p.x_new _ (by omega)

/-- The old x kernel vanishes outside its support cells
`i_old .. i_old + N`. -/
theorem SxO_supp (N : ℕ) (p : Esirk2D) (cx : ℤ)
    (h : cx < Esirk2D.i_old N p ∨ Esirk2D.i_old N p + (N:ℤ) < cx) :
    Esirk2D.SxO N p cx = 0 :=
  csf_supp N p.x_old _ (by omega)

/-- The new z kernel vanishes outside its support cells. -/
theorem SzN_supp (N : ℕ) (p : Esirk2D) (cz : ℤ)
    (h : cz < Esirk2D.k_new N p ∨ Esirk2D.k_new N p + (N:ℤ) < cz) :
    Esirk2D.SzN N p cz = 0 :=
  csf_supp N p.z_new _ (by omega)

/-- The old z kernel vanishes outside its support cells. -/
theorem SzO_supp (N : ℕ) (p : Esirk2D) (cz : ℤ)
    (h : cz < Esirk2D.k_old N p ∨ Esirk2D.k_old N p + (N:ℤ) < cz) :
    Esirk2D.SzO N p cz = 0 :=
  csf_supp N p.z_old _ (by omega)

/-- Below the trimmed window base both x kernels vanish (one-cell-shift
hypothesis). -/
theorem x_kernels_zero_below (N : ℕ) (p : Esirk2D)
    (hsh : Esirk2D.i_new N p - 1 ≤ Esirk2D.i_old N p ∧
      Esirk2D.i_old N p ≤ Esirk2D.i_new N p + 1)
    (cx : ℤ) (h : cx - (Esirk2D.i_new N p - 1) < Esirk2D.dil N p) :
    Esirk2D.SxO N p cx = 0 ∧ Esirk2D.SxN N p cx = 0 := by
  unfold Esirk2D.dil at h
  split_ifs at h with hc
  · exact ⟨SxO_supp N p cx (by omega), SxN_supp N p cx (by omega)⟩
  · exact ⟨SxO_supp N p cx (by omega), SxN_supp N p cx (by omega)⟩

/-- Above the trimmed window top both x kernels vanish. -/
theorem x_kernels_zero_above (N : ℕ) (p : Esirk2D)
    (hsh : Esirk2D.i_new N p - 1 ≤ Esirk2D.i_old N p ∧
      Esirk2D.i_old N p ≤ Esirk2D.i_new N p + 1)
    (cx : ℤ) (h : (N:ℤ) + 2 - Esirk2D.diu N p < cx - (Esirk2D.i_new N p - 1)) :
    Esirk2D.SxO N p cx = 0 ∧ Esirk2D.SxN N p cx = 0 := by
  unfold Esirk2D.diu at h
  split_ifs at h with hc
  · exact ⟨SxO_supp N p cx (by omega), SxN_supp N p cx (by omega)⟩
  · exact ⟨SxO_supp N p cx (by omega), SxN_supp N p cx (by omega)⟩

/-- Below the trimmed window base both z kernels vanish. -/
theorem z_kernels_zero_below (N : ℕ) (p : Esirk2D)
    (hsh : Esirk2D.k_new N p - 1 ≤ Esirk2D.k_old N p ∧
      Esirk2D.k_old N p ≤ Esirk2D.k_new N p + 1)
    (cz : ℤ) (h : cz - (Esirk2D.k_new N p - 1) < Esirk2D.dkl N p) :
    Esirk2D.SzO N p cz = 0 ∧ Esirk2D.SzN N p cz = 0 := by
  unfold Esirk2D.dkl at h
  split_ifs at h with hc
  · exact ⟨SzO_supp N p cz (by omega), SzN_supp N p cz (by omega)⟩
  · exact ⟨SzO_supp N p cz (by omega), SzN_supp N p cz (by omega)⟩

/-- Above the trimmed window top both z kernels vanish. -/
theorem z_kernels_zero_above (N : ℕ) (p : Esirk2D)
    (hsh : Esirk2D.k_new N p - 1 ≤ Esirk2D.k_old N p ∧
      Esirk2D.k_old N p ≤ Esirk2D.k_new N p + 1)
    (cz : ℤ) (h : (N:ℤ) + 2 - Esirk2D.dku N p < cz - (Esirk2D.k_new N p - 1)) :
    Esirk2D.SzO N p cz = 0 ∧ Esirk2D.SzN N p cz = 0 := by
  unfold Esirk2D.dku at h
  split_ifs at h with hc
  · exact ⟨SzO_supp N p cz (by omega), SzN_supp N p cz (by omega)⟩
  · exact ⟨SzO_supp N p cz (by omega), SzN_supp N p cz (by omega)⟩

/-- The x prefix sum vanishes below the trimmed window base. -/
theorem preX_zero_below (N : ℕ) (p : Esirk2D)
    (hsh : Esirk2D.i_new N p - 1 ≤ Esirk2D.i_old N p ∧
      Esirk2D.i_old N p ≤ Esirk2D.i_new N p + 1)
    (cx : ℤ) (h : cx - (Esirk2D.i_new N p - 1) < Esirk2D.dil N p) :
    Esirk2D.preX N p cx = 0 := by
  unfold Esirk2D.preX
  apply Finset.sum_eq_zero
  intro c hc
  rw [Finset.mem_Icc] at hc
  have hz := x_kernels_zero_below N p hsh c (by omega)
  rw [hz.1, hz.2, sub_zero]

/-- The x prefix sum telescopes to zero above the trimmed window top. -/
theorem preX_zero_above (N : ℕ) (p : Esirk2D) (hN : N ≤ 3)
    (hsh : Esirk2D.i_new N p - 1 ≤ Esirk2D.i_old N p ∧
      Esirk2D.i_old N p ≤ Esirk2D.i_new N p + 1)
    (cx : ℤ) (h : (N:ℤ) + 1 - Esirk2D.diu N p < cx - (Esirk2D.i_new N p - 1)) :
    Esirk2D.preX N p cx = 0 := by
  unfold Esirk2D.preX
  rw [Finset.sum_sub_distrib]
  have hBx : Esirk2D.i_old N p + (N:ℤ) ≤ cx := by
    unfold Esirk2D.diu at h
    split_ifs at h with hc <;> omega
  have h1 : ∑ c ∈ Finset.Icc (Esirk2D.i_new N p - 1) cx, Esirk2D.SxO N p c = 1 := by
    unfold Esirk2D.SxO
    exact ker_shift_sum_one N (compute_shape_factor N p.x_old).2
      (fun i hi => csf_supp N p.x_old i hi) (csf_sum_one N hN p.x_old)
      (Esirk2D.i_old N p) _ _ (by omega) hBx
  have h2 : ∑ c ∈ Finset.Icc (Esirk2D.i_new N p - 1) cx, Esirk2D.SxN N p c = 1 := by
    unfold Esirk2D.SxN
    exact ker_shift_sum_one N (compute_shape_factor N p.x_new).2
      (fun i hi => csf_supp N p.x_new i hi) (csf_sum_one N hN p.x_new)
      (Esirk2D.i_new N p) _ _ (by omega) (by unfold Esirk2D.diu at h; split_ifs at h <;> omega)
  rw [h1, h2, sub_self]

/-- One step of the x prefix sum is the kernel difference at the new cell. -/
theorem preX_diff (N : ℕ) (p : Esirk2D)
    (hsh : Esirk2D.i_new N p - 1 ≤ Esirk2D.i_old N p ∧
      Esirk2D.i_old N p ≤ Esirk2D.i_new N p + 1)
    (cx : ℤ) :
    Esirk2D.preX N p cx - Esirk2D.preX N p (cx - 1)
      = Esirk2D.SxO N p cx - Esirk2D.SxN N p cx := by
  unfold Esirk2D.preX
  by_cases hc : Esirk2D.i_new N p - 1 ≤ cx
  · rw [sum_Icc_top _ _ hc]
    ring
  · rw [Finset.Icc_eq_empty (by omega), Finset.Icc_eq_empty (by omega)]
    have h1 : Esirk2D.SxO N p cx = 0 := SxO_supp N p cx (by omega)
    have h2 : Esirk2D.SxN N p cx = 0 := SxN_supp N p cx (by omega)
    rw [h1, h2]
    simp

/-- The trimmed accumulation range along x reproduces the prefix sum from
the window base. -/
theorem preX_eq_from (N : ℕ) (p : Esirk2D)
    (hsh : Esirk2D.i_new N p - 1 ≤ Esirk2D.i_old N p ∧
      Esirk2D.i_old N p ≤ Esirk2D.i_new N p + 1)
    (cx : ℤ) :
    ∑ c ∈ Finset.Icc (Esirk2D.i_new N p - 1 + Esirk2D.dil N p) cx,
        (Esirk2D.SxO N p c - Esirk2D.SxN N p c)
      = Esirk2D.preX N p cx := by
  unfold Esirk2D.preX Esirk2D.dil
  split_ifs with hc
  · rw [add_zero]
  · by_cases h2 : Esirk2D.i_new N p - 1 ≤ cx
    · rw [sum_Icc_bot _ _ h2]
      have h1 : Esirk2D.SxO N p (Esirk2D.i_new N p - 1) = 0 :=
        SxO_supp N p _ (by omega)
      have h3 : Esirk2D.SxN N p (Esirk2D.i_new N p - 1) = 0 :=
        SxN_supp N p _ (by omega)
      rw [h1, h3]
      ring
    · rw [Finset.Icc_eq_empty (by omega), Finset.Icc_eq_empty (by omega)]

/-- The z prefix sum vanishes below the trimmed window base. -/
theorem preZ_zero_below (N : ℕ) (p : Esirk2D)
    (hsh : Esirk2D.k_new N p - 1 ≤ Esirk2D.k_old N p ∧
      Esirk2D.k_old N p ≤ Esirk2D.k_new N p + 1)
    (cz : ℤ) (h : cz - (Esirk2D.k_new N p - 1) < Esirk2D.dkl N p) :
    Esirk2D.preZ N p cz = 0 := by
  unfold Esirk2D.preZ
  apply Finset.sum_eq_zero
  intro c hc
  rw [Finset.mem_Icc] at hc
  have hz := z_kernels_zero_below N p hsh c (by omega)
  rw [hz.1, hz.2, sub_zero]

/-- The z prefix sum telescopes to zero above the trimmed window top. -/
theorem preZ_zero_above (N : ℕ) (p : Esirk2D) (hN : N ≤ 3)
    (hsh : Esirk2D.k_new N p - 1 ≤ Esirk2D.k_old N p ∧
      Esirk2D.k_old N p ≤ Esirk2D.k_new N p + 1)
    (cz : ℤ) (h : (N:ℤ) + 1 - Esirk2D.dku N p < cz - (Esirk2D.k_new N p - 1)) :
    Esirk2D.preZ N p cz = 0 := by
  unfold Esirk2D.preZ
  rw [Finset.sum_sub_distrib]
  have hBz : Esirk2D.k_old N p + (N:ℤ) ≤ cz := by
    unfold Esirk2D.dku at h
    split_ifs at h with hc <;> omega
  have h1 : ∑ c ∈ Finset.Icc (Esirk2D.k_new N p - 1) cz, Esirk2D.SzO N p c = 1 := by
    unfold Esirk2D.SzO
    exact ker_shift_sum_one N (compute_shape_factor N p.z_old).2
      (fun i hi => csf_supp N p.z_old i hi) (csf_sum_one N hN p.z_old)
      (Esirk2D.k_old N p) _ _ (by omega) hBz
  have h2 : ∑ c ∈ Finset.Icc (Esirk2D.k_new N p - 1) cz, Esirk2D.SzN N p c = 1 := by
    unfold Esirk2D.SzN
    exact ker_shift_sum_one N (compute_shape_factor N p.z_new).2
      (fun i hi => csf_supp N p.z_new i hi) (csf_sum_one N hN p.z_new)
      (Esirk2D.k_new N p) _ _ (by omega) (by unfold Esirk2D.dku at h; split_ifs at h <;> omega)
  rw [h1, h2, sub_self]

/-- One step of the z prefix sum is the kernel difference at the new cell. -/
theorem preZ_diff (N : ℕ) (p : Esirk2D)
    (hsh : Esirk2D.k_new N p - 1 ≤ Esirk2D.k_old N p ∧
      Esirk2D.k_old N p ≤ Esirk2D.k_new N p + 1)
    (cz : ℤ) :
    Esirk2D.preZ N p cz - Esirk2D.preZ N p (cz - 1)
      = Esirk2D.SzO N p cz - Esirk2D.SzN N p cz := by
  unfold Esirk2D.preZ
  by_cases hc : Esirk2D.k_new N p - 1 ≤ cz
  · rw [sum_Icc_top _ _ hc]
    ring
  · rw [Finset.Icc_eq_empty (by omega), Finset.Icc_eq_empty (by omega)]
    have h1 : Esirk2D.SzO N p cz = 0 := SzO_supp N p cz (by omega)
    have h2 : Esirk2D.SzN N p cz = 0 := SzN_supp N p cz (by omega)
    rw [h1, h2]
    simp

/-- The trimmed accumulation range along z reproduces the prefix sum from
the window base. -/
theorem preZ_eq_from (N : ℕ) (p : Esirk2D)
    (hsh : Esirk2D.k_new N p - 1 ≤ Esirk2D.k_old N p ∧
      Esirk2D.k_old N p ≤ Esirk2D.k_new N p + 1)
    (cz : ℤ) :
    ∑ c ∈ Finset.Icc (Esirk2D.k_new N p - 1 + Esirk2D.dkl N p) cz,
        (Esirk2D.SzO N p c - Esirk2D.SzN N p c)
      = Esirk2D.preZ N p cz := by
  unfold Esirk2D.preZ Esirk2D.dkl
  split_ifs with hc
  · rw [add_zero]
  · by_cases h2 : Esirk2D.k_new N p - 1 ≤ cz
    · rw [sum_Icc_bot _ _ h2]
      have h1 : Esirk2D.SzO N p (Esirk2D.k_new N p - 1) = 0 :=
        SzO_supp N p _ (by omega)
      have h3 : Esirk2D.SzN N p (Esirk2D.k_new N p - 1) = 0 :=
        SzN_supp N p _ (by omega)
      rw [h1, h3]
      ring
    · rw [Finset.Icc_eq_empty (by omega), Finset.Icc_eq_empty (by omega)]

/-- Trim deltas are 0 or 1 (x lower). -/
theorem dil_bounds (N : ℕ) (p : Esirk2D) :
    0 ≤ Esirk2D.dil N p ∧ Esirk2D.dil N p ≤ 1 := by
  unfold Esirk2D.dil
  split_ifs <;> norm_num

/-- Trim deltas are 0 or 1 (x upper). -/
theorem diu_bounds (N : ℕ) (p : Esirk2D) :
    0 ≤ Esirk2D.diu N p ∧ Esirk2D.diu N p ≤ 1 := by
  unfold Esirk2D.diu
  split_ifs <;> norm_num

/-- Trim deltas are 0 or 1 (z lower). -/
theorem dkl_bounds (N : ℕ) (p : Esirk2D) :
    0 ≤ Esirk2D.dkl N p ∧ Esirk2D.dkl N p ≤ 1 := by
  unfold Esirk2D.dkl
  split_ifs <;> norm_num

/-- Trim deltas are 0 or 1 (z upper). -/
theorem dku_bounds (N : ℕ) (p : Esirk2D) :
    0 ≤ Esirk2D.dku N p ∧ Esirk2D.dku N p ≤ 1 := by
  unfold Esirk2D.dku
  split_ifs <;> norm_num

/-- Pull the two constant factors out of a window sum. -/
theorem sum_mul_const_left_right (S : Finset ℤ) (a W : ℚ) (g : ℤ → ℚ) :
    ∑ i2 ∈ S, a * g i2 * W = a * (∑ i2 ∈ S, g i2) * W := by
  have h1 : ∀ i2 ∈ S, a * g i2 * W = (a * W) * g i2 := fun _ _ => by ring
  rw [Finset.sum_congr rfl h1, ← Finset.mul_sum]
  ring

/-- Closed form of the trimmed Jx accumulation: at every absolute cell the
deposited amount is `wqx` times the x prefix sum times the time-averaged z
weight. -/
theorem JxDep_closed (N : ℕ) (p : Esirk2D) (hN : N ≤ 3)
    (hshx : Esirk2D.i_new N p - 1 ≤ Esirk2D.i_old N p ∧
      Esirk2D.i_old N p ≤ Esirk2D.i_new N p + 1)
    (hshz : Esirk2D.k_new N p - 1 ≤ Esirk2D.k_old N p ∧
      Esirk2D.k_old N p ≤ Esirk2D.k_new N p + 1)
    (c : ℤ × ℤ) :
    Esirk2D.JxDep N p c
      = Esirk2D.wqx p * Esirk2D.preX N p c.1 * Esirk2D.wzAvg N p c.2 := by
  unfold Esirk2D.JxDep
  split_ifs with hcond
  · simp only [sx_new_arr_eq, sx_old_arr_eq, sz_new_arr_eq, sz_old_arr_eq,
      sub_add_cancel]
    rw [show (fun i2 => Esirk2D.wqx p *
          (Esirk2D.SxO N p (i2 + (Esirk2D.i_new N p - 1)) -
            Esirk2D.SxN N p (i2 + (Esirk2D.i_new N p - 1))) *
          (Esirk2D.SzN N p c.2 +
            1/2 * (Esirk2D.SzO N p c.2 - Esirk2D.SzN N p c.2)))
        = (fun i2 => Esirk2D.wqx p *
            ((fun c2 => Esirk2D.SxO N p c2 - Esirk2D.SxN N p c2)
              (i2 + (Esirk2D.i_new N p - 1))) *
            (Esirk2D.SzN N p c.2 +
              1/2 * (Esirk2D.SzO N p c.2 - Esirk2D.SzN N p c.2)))
      from rfl]
    rw [sum_mul_const_left_right]
    rw [sum_reindex (fun c2 => Esirk2D.SxO N p c2 - Esirk2D.SxN N p c2)]
    rw [show Esirk2D.dil N p + (Esirk2D.i_new N p - 1)
        = Esirk2D.i_new N p - 1 + Esirk2D.dil N p from by ring]
    rw [show c.1 - (Esirk2D.i_new N p - 1) + (Esirk2D.i_new N p - 1) = c.1
        from by ring]
    rw [preX_eq_from N p hshx]
    unfold Esirk2D.wzAvg
    rfl
  · have hor : ¬ (Esirk2D.dkl N p ≤ c.2 - (Esirk2D.k_new N p - 1)) ∨
        ¬ (c.2 - (Esirk2D.k_new N p - 1) ≤ (N:ℤ) + 2 - Esirk2D.dku N p) ∨
        ¬ (Esirk2D.dil N p ≤ c.1 - (Esirk2D.i_new N p - 1)) ∨
        ¬ (c.1 - (Esirk2D.i_new N p - 1) ≤ (N:ℤ) + 1 - Esirk2D.diu N p) := by
      tauto
    rcases hor with h | h | h | h
    · have hz := z_kernels_zero_below N p hshz c.2 (by omega)
      unfold Esirk2D.wzAvg
      rw [hz.1, hz.2]
      ring
    · have hz := z_kernels_zero_above N p hshz c.2 (by omega)
      unfold Esirk2D.wzAvg
      rw [hz.1, hz.2]
      ring
    · rw [preX_zero_below N p hshx c.1 (by omega)]
      ring
    · rw [preX_zero_above N p hN hshx c.1 (by omega)]
      ring

/-- Closed form of the untrimmed (full-window) Jx accumulation: identical to
the trimmed closed form. -/
theorem JxDepFull_closed (N : ℕ) (p : Esirk2D) (hN : N ≤ 3)
    (hshx : Esirk2D.i_new N p - 1 ≤ Esirk2D.i_old N p ∧
      Esirk2D.i_old N p ≤ Esirk2D.i_new N p + 1)
    (hshz : Esirk2D.k_new N p - 1 ≤ Esirk2D.k_old N p ∧
      Esirk2D.k_old N p ≤ Esirk2D.k_new N p + 1)
    (c : ℤ × ℤ) :
    Esirk2D.JxDepFull N p c
      = Esirk2D.wqx p * Esirk2D.preX N p c.1 * Esirk2D.wzAvg N p c.2 := by
  unfold Esirk2D.JxDepFull
  split_ifs with hcond
  · simp only [sx_new_arr_eq, sx_old_arr_eq, sz_new_arr_eq, sz_old_arr_eq,
      sub_add_cancel]
    rw [show (fun i2 => Esirk2D.wqx p *
          (Esirk2D.SxO N p (i2 + (Esirk2D.i_new N p - 1)) -
            Esirk2D.SxN N p (i2 + (Esirk2D.i_new N p - 1))) *
          (Esirk2D.SzN N p c.2 +
            1/2 * (Esirk2D.SzO N p c.2 - Esirk2D.SzN N p c.2)))
        = (fun i2 => Esirk2D.wqx p *
            ((fun c2 => Esirk2D.SxO N p c2 - Esirk2D.SxN N p c2)
              (i2 + (Esirk2D.i_new N p - 1))) *
            (Esirk2D.SzN N p c.2 +
              1/2 * (Esirk2D.SzO N p c.2 - Esirk2D.SzN N p c.2)))
      from rfl]
    rw [sum_mul_const_left_right]
    rw [sum_reindex (fun c2 => Esirk2D.SxO N p c2 - Esirk2D.SxN N p c2)]
    rw [zero_add]
    rw [show c.1 - (Esirk2D.i_new N p - 1) + (Esirk2D.i_new N p - 1) = c.1
        from by ring]
    unfold Esirk2D.preX Esirk2D.wzAvg
    rfl
  · have hor : ¬ ((0:ℤ) ≤ c.2 - (Esirk2D.k_new N p - 1)) ∨
        ¬ (c.2 - (Esirk2D.k_new N p - 1) ≤ (N:ℤ) + 2) ∨
        ¬ ((0:ℤ) ≤ c.1 - (Esirk2D.i_new N p - 1)) ∨
        ¬ (c.1 - (Esirk2D.i_new N p - 1) ≤ (N:ℤ) + 2) := by
      tauto
    have hb1 := dkl_bounds N p
    have hb2 := dku_bounds N p
    have hb3 := dil_bounds N p
    have hb4 := diu_bounds N p
    rcases hor with h | h | h | h
    · have hz := z_kernels_zero_below N p hshz c.2 (by omega)
      unfold Esirk2D.wzAvg
      rw [hz.1, hz.2]
      ring
    · have hz := z_kernels_zero_above N p hshz c.2 (by omega)
      unfold Esirk2D.wzAvg
      rw [hz.1, hz.2]
      ring
    · rw [preX_zero_below N p hshx c.1 (by omega)]
      ring
    · rw [preX_zero_above N p hN hshx c.1 (by omega)]
      ring

/-- Closed form of the trimmed Jz accumulation: at every absolute cell the
deposited amount is `wqz` times the z prefix sum times the time-averaged x
weight. -/
theorem JzDep_closed (N : ℕ) (p : Esirk2D) (hN : N ≤ 3)
    (hshx : Esirk2D.i_new N p - 1 ≤ Esirk2D.i_old N p ∧
      Esirk2D.i_old N p ≤ Esirk2D.i_new N p + 1)
    (hshz : Esirk2D.k_new N p - 1 ≤ Esirk2D.k_old N p ∧
      Esirk2D.k_old N p ≤ Esirk2D.k_new N p + 1)
    (c : ℤ × ℤ) :
    Esirk2D.JzDep N p c
      = Esirk2D.wqz p * Esirk2D.preZ N p c.2 * Esirk2D.wxAvg N p c.1 := by
  unfold Esirk2D.JzDep
  split_ifs with hcond
  · simp only [sx_new_arr_eq, sx_old_arr_eq, sz_new_arr_eq, sz_old_arr_eq,
      sub_add_cancel]
    rw [show (fun k2 => Esirk2D.wqz p *
          (Esirk2D.SzO N p (k2 + (Esirk2D.k_new N p - 1)) -
            Esirk2D.SzN N p (k2 + (Esirk2D.k_new N p - 1))) *
          (Esirk2D.SxN N p c.1 +
            1/2 * (Esirk2D.SxO N p c.1 - Esirk2D.SxN N p c.1)))
        = (fun k2 => Esirk2D.wqz p *
            ((fun c2 => Esirk2D.SzO N p c2 - Esirk2D.SzN N p c2)
              (k2 + (Esirk2D.k_new N p - 1))) *
            (Esirk2D.SxN N p c.1 +
              1/2 * (Esirk2D.SxO N p c.1 - Esirk2D.SxN N p c.1)))
      from rfl]
    rw [sum_mul_const_left_right]
    rw [sum_reindex (fun c2 => Esirk2D.SzO N p c2 - Esirk2D.SzN N p c2)]
    rw [show Esirk2D.dkl N p + (Esirk2D.k_new N p - 1)
        = Esirk2D.k_new N p - 1 + Esirk2D.dkl N p from by ring]
    rw [show c.2 - (Esirk2D.k_new N p - 1) + (Esirk2D.k_new N p - 1) = c.2
        from by ring]
    rw [preZ_eq_from N p hshz]
    unfold Esirk2D.wxAvg
    rfl
  · have hor : ¬ (Esirk2D.dil N p ≤ c.1 - (Esirk2D.i_new N p - 1)) ∨
        ¬ (c.1 - (Esirk2D.i_new N p - 1) ≤ (N:ℤ) + 2 - Esirk2D.diu N p) ∨
        ¬ (Esirk2D.dkl N p ≤ c.2 - (Esirk2D.k_new N p - 1)) ∨
        ¬ (c.2 - (Esirk2D.k_new N p - 1) ≤ (N:ℤ) + 1 - Esirk2D.dku N p) := by
      tauto
    rcases hor with h | h | h | h
    · have hx := x_kernels_zero_below N p hshx c.1 (by omega)
      unfold Esirk2D.wxAvg
      rw [hx.1, hx.2]
      ring
    · have hx := x_kernels_zero_above N p hshx c.1 (by omega)
      unfold Esirk2D.wxAvg
      rw [hx.1, hx.2]
      ring
    · rw [preZ_zero_below N p hshz c.2 (by omega)]
      ring
    · rw [preZ_zero_above N p hN hshz c.2 (by omega)]
      ring

/-- Closed form of the untrimmed (full-window) Jz accumulation. -/
theorem JzDepFull_closed (N : ℕ) (p : Esirk2D) (hN : N ≤ 3)
    (hshx : Esirk2D.i_new N p - 1 ≤ Esirk2D.i_old N p ∧
      Esirk2D.i_old N p ≤ Esirk2D.i_new N p + 1)
    (hshz : Esirk2D.k_new N p - 1 ≤ Esirk2D.k_old N p ∧
      Esirk2D.k_old N p ≤ Esirk2D.k_new N p + 1)
    (c : ℤ × ℤ) :
    Esirk2D.JzDepFull N p c
      = Esirk2D.wqz p * Esirk2D.preZ N p c.2 * Esirk2D.wxAvg N p c.1 := by
  unfold Esirk2D.JzDepFull
  split_ifs with hcond
  · simp only [sx_new_arr_eq, sx_old_arr_eq, sz_new_arr_eq, sz_old_arr_eq,
      sub_add_cancel]
    rw [show (fun k2 => Esirk2D.wqz p *
          (Esirk2D.SzO N p (k2 + (Esirk2D.k_new N p - 1)) -
            Esirk2D.SzN N p (k2 + (Esirk2D.k_new N p - 1))) *
          (Esirk2D.SxN N p c.1 +
            1/2 * (Esirk2D.SxO N p c.1 - Esirk2D.SxN N p c.1)))
        = (fun k2 => Esirk2D.wqz p *
            ((fun c2 => Esirk2D.SzO N p c2 - Esirk2D.SzN N p c2)
              (k2 + (Esirk2D.k_new N p - 1))) *
            (Esirk2D.SxN N p c.1 +
              1/2 * (Esirk2D.SxO N p c.1 - Esirk2D.SxN N p c.1)))
      from rfl]
    rw [sum_mul_const_left_right]
    rw [sum_reindex (fun c2 => Esirk2D.SzO N p c2 - Esirk2D.SzN N p c2)]
    rw [zero_add]
    rw [show c.2 - (Esirk2D.k_new N p - 1) + (Esirk2D.k_new N p - 1) = c.2
        from by ring]
    unfold Esirk2D.preZ Esirk2D.wxAvg
    rfl
  · have hor : ¬ ((0:ℤ) ≤ c.1 - (Esirk2D.i_new N p - 1)) ∨
        ¬ (c.1 - (Esirk2D.i_new N p - 1) ≤ (N:ℤ) + 2) ∨
        ¬ ((0:ℤ) ≤ c.2 - (Esirk2D.k_new N p - 1)) ∨
        ¬ (c.2 - (Esirk2D.k_new N p - 1) ≤ (N:ℤ) + 2) := by
      tauto
    have hb1 := dkl_bounds N p
    have hb2 := dku_bounds N p
    have hb3 := dil_bounds N p
    have hb4 := diu_bounds N p
    rcases hor with h | h | h | h
    · have hx := x_kernels_zero_below N p hshx c.1 (by omega)
      unfold Esirk2D.wxAvg
      rw [hx.1, hx.2]
      ring
    · have hx := x_kernels_zero_above N p hshx c.1 (by omega)
      unfold Esirk2D.wxAvg
      rw [hx.1, hx.2]
      ring
    · rw [preZ_zero_below N p hshz c.2 (by omega)]
      ring
    · rw [preZ_zero_above N p hN hshz c.2 (by omega)]
      ring

/-- Closed form of the trimmed Jy deposit: at every absolute cell the value
is the out-of-plane current expression built from the four absolute
kernels. -/
theorem JyDep_closed (N : ℕ) (p : Esirk2D) (hN : N ≤ 3)
    (hshx : Esirk2D.i_new N p - 1 ≤ Esirk2D.i_old N p ∧
      Esirk2D.i_old N p ≤ Esirk2D.i_new N p + 1)
    (hshz : Esirk2D.k_new N p - 1 ≤ Esirk2D.k_old N p ∧
      Esirk2D.k_old N p ≤ Esirk2D.k_new N p + 1)
    (c : ℤ × ℤ) :
    Esirk2D.JyDep N p c
      = Esirk2D.wq p * p.vy * Esirk2D.invvol p *
          (Esirk2D.wzAvg N p c.2 * Esirk2D.SxN N p c.1 +
           (1/2 * Esirk2D.SzN N p c.2 +
             1/3 * (Esirk2D.SzO N p c.2 - Esirk2D.SzN N p c.2)) *
            (Esirk2D.SxO N p c.1 - Esirk2D.SxN N p c.1)) := by
  unfold Esirk2D.JyDep
  split_ifs with hcond
  · simp only [sx_new_arr_eq, sx_old_arr_eq, sz_new_arr_eq, sz_old_arr_eq,
      sub_add_cancel]
    unfold Esirk2D.wzAvg
    ring
  · have hor : ¬ (Esirk2D.dkl N p ≤ c.2 - (Esirk2D.k_new N p - 1)) ∨
        ¬ (c.2 - (Esirk2D.k_new N p - 1) ≤ (N:ℤ) + 2 - Esirk2D.dku N p) ∨
        ¬ (Esirk2D.dil N p ≤ c.1 - (Esirk2D.i_new N p - 1)) ∨
        ¬ (c.1 - (Esirk2D.i_new N p - 1) ≤ (N:ℤ) + 2 - Esirk2D.diu N p) := by
      tauto
    rcases hor with h | h | h | h
    · have hz := z_kernels_zero_below N p hshz c.2 (by omega)
      unfold Esirk2D.wzAvg
      rw [hz.1, hz.2]
      ring
    · have hz := z_kernels_zero_above N p hshz c.2 (by omega)
      unfold Esirk2D.wzAvg
      rw [hz.1, hz.2]
      ring
    · have hx := x_kernels_zero_below N p hshx c.1 (by omega)
      rw [hx.1, hx.2]
      ring
    · have hx := x_kernels_zero_above N p hshx c.1 (by omega)
      rw [hx.1, hx.2]
      ring

/-- Closed form of the untrimmed (full-window) Jy deposit: identical to the
trimmed closed form. -/
theorem JyDepFull_closed (N : ℕ) (p : Esirk2D) (hN : N ≤ 3)
    (hshx : Esirk2D.i_new N p - 1 ≤ Esirk2D.i_old N p ∧
      Esirk2D.i_old N p ≤ Esirk2D.i_new N p + 1)
    (hshz : Esirk2D.k_new N p - 1 ≤ Esirk2D.k_old N p ∧
      Esirk2D.k_old N p ≤ Esirk2D.k_new N p + 1)
    (c : ℤ × ℤ) :
    Esirk2D.JyDepFull N p c
      = Esirk2D.wq p * p.vy * Esirk2D.invvol p *
          (Esirk2D.wzAvg N p c.2 * Esirk2D.SxN N p c.1 +
           (1/2 * Esirk2D.SzN N p c.2 +
             1/3 * (Esirk2D.SzO N p c.2 - Esirk2D.SzN N p c.2)) *
            (Esirk2D.SxO N p c.1 - Esirk2D.SxN N p c.1)) := by
  unfold Esirk2D.JyDepFull
  split_ifs with hcond
  · simp only [sx_new_arr_eq, sx_old_arr_eq, sz_new_arr_eq, sz_old_arr_eq,
      sub_add_cancel]
    unfold Esirk2D.wzAvg
    ring
  · have hor : ¬ ((0:ℤ) ≤ c.2 - (Esirk2D.k_new N p - 1)) ∨
        ¬ (c.2 - (Esirk2D.k_new N p - 1) ≤ (N:ℤ) + 2) ∨
        ¬ ((0:ℤ) ≤ c.1 - (Esirk2D.i_new N p - 1)) ∨
        ¬ (c.1 - (Esirk2D.i_new N p - 1) ≤ (N:ℤ) + 2) := by
      tauto
    have hb1 := dkl_bounds N p
    have hb2 := dku_bounds N p
    have hb3 := dil_bounds N p
    have hb4 := diu_bounds N p
    rcases hor with h | h | h | h
    · have hz := z_kernels_zero_below N p hshz c.2 (by omega)
      unfold Esirk2D.wzAvg
      rw [hz.1, hz.2]
      ring
    · have hz := z_kernels_zero_above N p hshz c.2 (by omega)
      unfold Esirk2D.wzAvg
      rw [hz.1, hz.2]
      ring
    · have hx := x_kernels_zero_below N p hshx c.1 (by omega)
      rw [hx.1, hx.2]
      ring
    · have hx := x_kernels_zero_above N p hshx c.1 (by omega)
      rw [hx.1, hx.2]
      ring

/-- C1 amended — Esirkepov charge conservation (2-D x-z configuration): for
every deposition order 0..3, positive `dt` and cell sizes, and any
velocity/position whose displacement moves each leftmost index by at most
one cell (the order+3 window assumption of the shape-factor arrays), the
discrete divergence of the deposited current over any control cell equals
minus the rate of change of the charge density implied by the particle's
displacement from `position - dt*velocity` to `position`, exactly. -/
theorem esirkepov_2d_charge_conservation (N : ℕ) (p : Esirk2D) (hN : N ≤ 3)
    (hdt : 0 < p.dt) (hdx : 0 < p.dxv) (hdz : 0 < p.dzv)
    (hshx : |Esirk2D.i_old N p - Esirk2D.i_new N p| ≤ 1)
    (hshz : |Esirk2D.k_old N p - Esirk2D.k_new N p| ≤ 1)
    (c : ℤ × ℤ) :
    (Esirk2D.JxDep N p c - Esirk2D.JxDep N p (c.1 - 1, c.2)) * Esirk2D.dxi p +
      (Esirk2D.JzDep N p c - Esirk2D.JzDep N p (c.1, c.2 - 1)) * Esirk2D.dzi p
    = -(Esirk2D.rhoNew N p c - Esirk2D.rhoOld N p c) / p.dt := by
  have hx : Esirk2D.i_new N p - 1 ≤ Esirk2D.i_old N p ∧
      Esirk2D.i_old N p ≤ Esirk2D.i_new N p + 1 := by
    have := abs_le.mp hshx
    constructor <;> omega
  have hz : Esirk2D.k_new N p - 1 ≤ Esirk2D.k_old N p ∧
      Esirk2D.k_old N p ≤ Esirk2D.k_new N p + 1 := by
    have := abs_le.mp hshz
    constructor <;> omega
  rw [JxDep_closed N p hN hx hz c, JxDep_closed N p hN hx hz (c.1 - 1, c.2),
    JzDep_closed N p hN hx hz c, JzDep_closed N p hN hx hz (c.1, c.2 - 1)]
  dsimp only
  have e1 : Esirk2D.preX N p c.1
      = Esirk2D.preX N p (c.1 - 1) + (Esirk2D.SxO N p c.1 - Esirk2D.SxN N p c.1) := by
    have := preX_diff N p hx c.1
    linarith
  have e2 : Esirk2D.preZ N p c.2
      = Esirk2D.preZ N p (c.2 - 1) + (Esirk2D.SzO N p c.2 - Esirk2D.SzN N p c.2) := by
    have := preZ_diff N p hz c.2
    linarith
  rw [e1, e2]
  unfold Esirk2D.wqx Esirk2D.wqz Esirk2D.invdtdx Esirk2D.invdtdz
    Esirk2D.dxi Esirk2D.dzi Esirk2D.rhoNew Esirk2D.rhoOld Esirk2D.invvol
    Esirk2D.wzAvg Esirk2D.wxAvg
  field_simp
  ring

/-- Witness for C1 (amended): a slow particle (quarter-cell displacement)
satisfies all hypotheses, and the continuity equation holds at cell (0,0). -/
theorem esirkepov_2d_charge_conservation_witness :
    (1:ℕ) ≤ 3 ∧ 0 < esirkWitP.dt ∧ 0 < esirkWitP.dxv ∧ 0 < esirkWitP.dzv ∧
    |Esirk2D.i_old 1 esirkWitP - Esirk2D.i_new 1 esirkWitP| ≤ 1 ∧
    |Esirk2D.k_old 1 esirkWitP - Esirk2D.k_new 1 esirkWitP| ≤ 1 ∧
    ((Esirk2D.JxDep 1 esirkWitP (0, 0) -
        Esirk2D.JxDep 1 esirkWitP ((0:ℤ) - 1, (0:ℤ))) * Esirk2D.dxi esirkWitP +
      (Esirk2D.JzDep 1 esirkWitP (0, 0) -
        Esirk2D.JzDep 1 esirkWitP ((0:ℤ), (0:ℤ) - 1)) * Esirk2D.dzi esirkWitP
      = -(Esirk2D.rhoNew 1 esirkWitP (0, 0) - Esirk2D.rhoOld 1 esirkWitP (0, 0))
          / esirkWitP.dt) := by
  have h1 : 0 < esirkWitP.dt := by norm_num [esirkWitP]
  have h2 : 0 < esirkWitP.dxv := by norm_num [esirkWitP]
  have h3 : 0 < esirkWitP.dzv := by norm_num [esirkWitP]
  have h4 : |Esirk2D.i_old 1 esirkWitP - Esirk2D.i_new 1 esirkWitP| ≤ 1 := by
    norm_num [Esirk2D.i_old, Esirk2D.i_new, compute_shifted_shape_factor,
      compute_shape_factor, Esirk2D.x_old, Esirk2D.x_new, Esirk2D.dtsdx0,
      Esirk2D.dxi, esirkWitP]
  have h5 : |Esirk2D.k_old 1 esirkWitP - Esirk2D.k_new 1 esirkWitP| ≤ 1 := by
    norm_num [Esirk2D.k_old, Esirk2D.k_new, compute_shifted_shape_factor,
      compute_shape_factor, Esirk2D.z_old, Esirk2D.z_new, Esirk2D.dtsdz0,
      Esirk2D.dzi, esirkWitP]
  exact ⟨by norm_num, h1, h2, h3, h4, h5,
    esirkepov_2d_charge_conservation 1 esirkWitP (by norm_num) h1 h2 h3 h4 h5 (0, 0)⟩

/-- Counterexample to C1 as stated: for a particle whose one-step
displacement spans three cells (velocity `-3` cells per step, allowed by
"any momentum, any dt, any cell sizes"), the old charge at cell (3,0) is
stranded outside the order+3 accumulation window, and the continuity
equation fails at that cell: the discrete divergence is 0 while the charge
density change demands 1. -/
theorem esirkepov_charge_conservation_counterexample :
    ¬ ((Esirk2D.JxDep 0 esirkWideP (3, 0) -
          Esirk2D.JxDep 0 esirkWideP ((3:ℤ) - 1, (0:ℤ))) * Esirk2D.dxi esirkWideP +
        (Esirk2D.JzDep 0 esirkWideP (3, 0) -
          Esirk2D.JzDep 0 esirkWideP ((3:ℤ), (0:ℤ) - 1)) * Esirk2D.dzi esirkWideP
        = -(Esirk2D.rhoNew 0 esirkWideP (3, 0) -
            Esirk2D.rhoOld 0 esirkWideP (3, 0)) / esirkWideP.dt) := by
  have hinew : Esirk2D.i_new 0 esirkWideP = 0 := by
    norm_num [Esirk2D.i_new, compute_shape_factor, Esirk2D.x_new,
      Esirk2D.dxi, esirkWideP]
  have hiold : Esirk2D.i_old 0 esirkWideP = 3 := by
    norm_num [Esirk2D.i_old, compute_shifted_shape_factor, compute_shape_factor,
      Esirk2D.x_old, Esirk2D.x_new, Esirk2D.dtsdx0, Esirk2D.dxi, esirkWideP]
  have hknew : Esirk2D.k_new 0 esirkWideP = 0 := by
    norm_num [Esirk2D.k_new, compute_shape_factor, Esirk2D.z_new,
      Esirk2D.dzi, esirkWideP]
  have hkold : Esirk2D.k_old 0 esirkWideP = 0 := by
    norm_num [Esirk2D.k_old, compute_shifted_shape_factor, compute_shape_factor,
      Esirk2D.z_old, Esirk2D.z_new, Esirk2D.dtsdz0, Esirk2D.dzi, esirkWideP]
  have hdil : Esirk2D.dil 0 esirkWideP = 1 := by
    simp [Esirk2D.dil, hinew, hiold]
  have hdiu : Esirk2D.diu 0 esirkWideP = 0 := by
    simp [Esirk2D.diu, hinew, hiold]
  have hdkl : Esirk2D.dkl 0 esirkWideP = 1 := by
    simp [Esirk2D.dkl, hknew, hkold]
  have hdku : Esirk2D.dku 0 esirkWideP = 1 := by
    simp [Esirk2D.dku, hknew, hkold]
  have hJx1 : Esirk2D.JxDep 0 esirkWideP (3, 0) = 0 := by
    unfold Esirk2D.JxDep
    rw [hdil, hdiu, hdkl, hdku, hinew, hknew]
    norm_num
  have hJx2 : Esirk2D.JxDep 0 esirkWideP ((3:ℤ) - 1, (0:ℤ)) = 0 := by
    unfold Esirk2D.JxDep
    rw [hdil, hdiu, hdkl, hdku, hinew, hknew]
    norm_num
  have hJz1 : Esirk2D.JzDep 0 esirkWideP (3, 0) = 0 := by
    unfold Esirk2D.JzDep
    rw [hdil, hdiu, hdkl, hdku, hinew, hknew]
    norm_num
  have hJz2 : Esirk2D.JzDep 0 esirkWideP ((3:ℤ), (0:ℤ) - 1) = 0 := by
    unfold Esirk2D.JzDep
    rw [hdil, hdiu, hdkl, hdku, hinew, hknew]
    norm_num
  have hrhoN : Esirk2D.rhoNew 0 esirkWideP (3, 0) = 0 := by
    unfold Esirk2D.rhoNew Esirk2D.SxN Esirk2D.SzN
    rw [hinew, hknew]
    norm_num [compute_shape_factor, sf_weights0, Esirk2D.x_new, Esirk2D.z_new,
      Esirk2D.dxi, Esirk2D.dzi, esirkWideP]
  have hrhoO : Esirk2D.rhoOld 0 esirkWideP (3, 0) = 1 := by
    unfold Esirk2D.rhoOld Esirk2D.SxO Esirk2D.SzO
    rw [hiold, hkold]
    norm_num [compute_shape_factor, sf_weights0, Esirk2D.wq, Esirk2D.invvol,
      Esirk2D.x_old, Esirk2D.x_new, Esirk2D.z_old, Esirk2D.z_new,
      Esirk2D.dtsdx0, Esirk2D.dtsdz0, Esirk2D.dxi, Esirk2D.dzi, esirkWideP]
  rw [hJx1, hJx2, hJz1, hJz2, hrhoN, hrhoO]
  norm_num [esirkWideP]

/-- C7 amended — trimmed-range equivalence: under the one-cell window
assumption, the trimmed Esirkepov loops deposit exactly the same value into
every cell as the untrimmed loops over the full (order+3)-sized window, and
every cell outside the particle's swept footprint (the union of the old and
new kernel supports per axis) receives no contribution.  (The trimmed
bounds may exclude slots whose shape factors are nonzero — see the
counterexample — but only slots whose deposited value is zero.) -/
theorem esirkepov_trimmed_range_equiv (N : ℕ) (p : Esirk2D) (hN : N ≤ 3)
    (hshx : |Esirk2D.i_old N p - Esirk2D.i_new N p| ≤ 1)
    (hshz : |Esirk2D.k_old N p - Esirk2D.k_new N p| ≤ 1)
    (c : ℤ × ℤ) :
    (Esirk2D.JxDep N p c = Esirk2D.JxDepFull N p c ∧
     Esirk2D.JyDep N p c = Esirk2D.JyDepFull N p c ∧
     Esirk2D.JzDep N p c = Esirk2D.JzDepFull N p c) ∧
    ((c.1 < min (Esirk2D.i_old N p) (Esirk2D.i_new N p) ∨
      max (Esirk2D.i_old N p) (Esirk2D.i_new N p) + (N:ℤ) < c.1 ∨
      c.2 < min (Esirk2D.k_old N p) (Esirk2D.k_new N p) ∨
      max (Esirk2D.k_old N p) (Esirk2D.k_new N p) + (N:ℤ) < c.2) →
      Esirk2D.JxDep N p c = 0 ∧ Esirk2D.JyDep N p c = 0 ∧
        Esirk2D.JzDep N p c = 0) := by
  have hx : Esirk2D.i_new N p - 1 ≤ Esirk2D.i_old N p ∧
      Esirk2D.i_old N p ≤ Esirk2D.i_new N p + 1 := by
    have := abs_le.mp hshx
    constructor <;> omega
  have hz : Esirk2D.k_new N p - 1 ≤ Esirk2D.k_old N p ∧
      Esirk2D.k_old N p ≤ Esirk2D.k_new N p + 1 := by
    have := abs_le.mp hshz
    constructor <;> omega
  constructor
  · refine ⟨?_, ?_, ?_⟩
    · rw [JxDep_closed N p hN hx hz c, JxDepFull_closed N p hN hx hz c]
    · rw [JyDep_closed N p hN hx hz c, JyDepFull_closed N p hN hx hz c]
    · rw [JzDep_closed N p hN hx hz c, JzDepFull_closed N p hN hx hz c]
  · intro hout
    rcases hout with h | h | h | h
    · have hpre := preX_zero_below N p hx c.1
        (by unfold Esirk2D.dil; split_ifs with hcc <;> omega)
      have hker := x_kernels_zero_below N p hx c.1
        (by unfold Esirk2D.dil; split_ifs with hcc <;> omega)
      refine ⟨?_, ?_, ?_⟩
      · rw [JxDep_closed N p hN hx hz c, hpre]
        ring
      · rw [JyDep_closed N p hN hx hz c, hker.1, hker.2]
        ring
      · rw [JzDep_closed N p hN hx hz c]
        unfold Esirk2D.wxAvg
        rw [hker.1, hker.2]
        ring
    · have hpre := preX_zero_above N p hN hx c.1
        (by unfold Esirk2D.diu; split_ifs with hcc <;> omega)
      have hker := x_kernels_zero_above N p hx c.1
        (by unfold Esirk2D.diu; split_ifs with hcc <;> omega)
      refine ⟨?_, ?_, ?_⟩
      · rw [JxDep_closed N p hN hx hz c, hpre]
        ring
      · rw [JyDep_closed N p hN hx hz c, hker.1, hker.2]
        ring
      · rw [JzDep_closed N p hN hx hz c]
        unfold Esirk2D.wxAvg
        rw [hker.1, hker.2]
        ring
    · have hpre := preZ_zero_below N p hz c.2
        (by unfold Esirk2D.dkl; split_ifs with hcc <;> omega)
      have hker := z_kernels_zero_below N p hz c.2
        (by unfold Esirk2D.dkl; split_ifs with hcc <;> omega)
      refine ⟨?_, ?_, ?_⟩
      · rw [JxDep_closed N p hN hx hz c]
        unfold Esirk2D.wzAvg
        rw [hker.1, hker.2]
        ring
      · rw [JyDep_closed N p hN hx hz c]
        unfold Esirk2D.wzAvg
        rw [hker.1, hker.2]
        ring
      · rw [JzDep_closed N p hN hx hz c, hpre]
        ring
    · have hpre := preZ_zero_above N p hN hz c.2
        (by unfold Esirk2D.dku; split_ifs with hcc <;> omega)
      have hker := z_kernels_zero_above N p hz c.2
        (by unfold Esirk2D.dku; split_ifs with hcc <;> omega)
      refine ⟨?_, ?_, ?_⟩
      · rw [JxDep_closed N p hN hx hz c]
        unfold Esirk2D.wzAvg
        rw [hker.1, hker.2]
        ring
      · rw [JyDep_closed N p hN hx hz c]
        unfold Esirk2D.wzAvg
        rw [hker.1, hker.2]
        ring
      · rw [JzDep_closed N p hN hx hz c, hpre]
        ring

/-- Counterexample to C7 as stated: for a stationary order-1 particle at
fractional offset 3/10 (old and new leftmost indices equal, so `diu = 1`),
the trimmed upper bound `order+1-diu = 1` of the Jx accumulation excludes
window slot 2, yet both the old and the new shape-factor arrays are nonzero
(equal to 3/10) at that slot — the trimming does not exclude only cells
where both shape factors are zero. -/
theorem esirkepov_trim_counterexample :
    (1:ℤ) + 1 - Esirk2D.diu 1 esirkTrimP < 2 ∧
    (2:ℤ) ≤ 1 + 2 ∧
    Esirk2D.sx_old_arr 1 esirkTrimP 2 ≠ 0 ∧
    Esirk2D.sx_new_arr 1 esirkTrimP 2 ≠ 0 := by
  have hinew : Esirk2D.i_new 1 esirkTrimP = 0 := by
    norm_num [Esirk2D.i_new, compute_shape_factor, Esirk2D.x_new,
      Esirk2D.dxi, esirkTrimP]
  have hiold : Esirk2D.i_old 1 esirkTrimP = 0 := by
    norm_num [Esirk2D.i_old, compute_shifted_shape_factor, compute_shape_factor,
      Esirk2D.x_old, Esirk2D.x_new, Esirk2D.dtsdx0, Esirk2D.dxi, esirkTrimP]
  have hdiu : Esirk2D.diu 1 esirkTrimP = 1 := by
    simp [Esirk2D.diu, hinew, hiold]
  refine ⟨by rw [hdiu]; norm_num, by norm_num, ?_, ?_⟩
  · unfold Esirk2D.sx_old_arr compute_shifted_shape_factor
    dsimp only
    rw [← i_old_eq, hiold, hinew]
    norm_num [compute_shape_factor, sf_weights1, Esirk2D.x_old, Esirk2D.x_new,
      Esirk2D.dtsdx0, Esirk2D.dxi, esirkTrimP]
  · unfold Esirk2D.sx_new_arr
    norm_num [compute_shape_factor, sf_weights1, Esirk2D.x_new,
      Esirk2D.dxi, esirkTrimP]

/-- Witness for C7 (amended): the slow witness particle satisfies the
one-cell window hypotheses, and at cell (0,0) the trimmed and untrimmed Jx
deposits agree. -/
theorem esirkepov_trimmed_range_equiv_witness :
    (1:ℕ) ≤ 3 ∧
    |Esirk2D.i_old 1 esirkWitP - Esirk2D.i_new 1 esirkWitP| ≤ 1 ∧
    |Esirk2D.k_old 1 esirkWitP - Esirk2D.k_new 1 esirkWitP| ≤ 1 ∧
    Esirk2D.JxDep 1 esirkWitP (0, 0) = Esirk2D.JxDepFull 1 esirkWitP (0, 0) := by
  have h4 : |Esirk2D.i_old 1 esirkWitP - Esirk2D.i_new 1 esirkWitP| ≤ 1 := by
    norm_num [Esirk2D.i_old, Esirk2D.i_new, compute_shifted_shape_factor,
      compute_shape_factor, Esirk2D.x_old, Esirk2D.x_new, Esirk2D.dtsdx0,
      Esirk2D.dxi, esirkWitP]
  have h5 : |Esirk2D.k_old 1 esirkWitP - Esirk2D.k_new 1 esirkWitP| ≤ 1 := by
    norm_num [Esirk2D.k_old, Esirk2D.k_new, compute_shifted_shape_factor,
      compute_shape_factor, Esirk2D.z_old, Esirk2D.z_new, Esirk2D.dtsdz0,
      Esirk2D.dzi, esirkWitP]
  exact ⟨by norm_num, h4, h5,
    ((esirkepov_trimmed_range_equiv 1 esirkWitP (by norm_num) h4 h5 (0, 0)).1).1⟩

/-- The particle loop is additive: the final array value at any cell is the
incoming value plus the sum of the per-particle contributions. -/
theorem depositLoop_eq {α : Type} (contrib : α → ℤ × ℤ → ℚ)
    (J0 : ℤ × ℤ → ℚ) (ps : List α) (c : ℤ × ℤ) :
    depositLoop contrib J0 ps c
      = J0 c + (ps.map (fun p => contrib p c)).sum := by
  induction ps generalizing J0 with
  | nil => simp [depositLoop]
  | cons q qs ih =>
    unfold depositLoop at ih ⊢
    rw [List.foldl_cons, ih]
    simp only [List.map_cons, List.sum_cons]
    ring

/-- The particle loop is invariant under permutation of the particle
batch. -/
theorem depositLoop_perm {α : Type} (contrib : α → ℤ × ℤ → ℚ)
    (J0 : ℤ × ℤ → ℚ) (ps ps' : List α) (h : ps.Perm ps') (c : ℤ × ℤ) :
    depositLoop contrib J0 ps c = depositLoop contrib J0 ps' c := by
  rw [depositLoop_eq, depositLoop_eq]
  congr 1
  exact (h.map _).sum_eq

/-- C8 — both deposition strategies are additive and order-independent: for
each current component of either strategy, the final array equals the
initial array plus the sum over all particles of that particle's individual
contribution, and the result is invariant under any permutation of the
particle processing order; the deposit is a pure function of its inputs
(each contribution depends only on the particle and grid parameters). -/
theorem deposition_additive_perm_invariant (N : ℕ) (J0 : ℤ × ℤ → ℚ)
    (c : ℤ × ℤ) (ps ps' : List Esirk2D) (qs qs' : List Direct2D)
    (hp : ps.Perm ps') (hq : qs.Perm qs') :
    (depositLoop (Esirk2D.JxDep N) J0 ps c
      = J0 c + (ps.map (fun p => Esirk2D.JxDep N p c)).sum) ∧
    (depositLoop (Esirk2D.JyDep N) J0 ps c
      = J0 c + (ps.map (fun p => Esirk2D.JyDep N p c)).sum) ∧
    (depositLoop (Esirk2D.JzDep N) J0 ps c
      = J0 c + (ps.map (fun p => Esirk2D.JzDep N p c)).sum) ∧
    (depositLoop (Direct2D.jxDep N) J0 qs c
      = J0 c + (qs.map (fun p => Direct2D.jxDep N p c)).sum) ∧
    (depositLoop (Direct2D.jyDep N) J0 qs c
      = J0 c + (qs.map (fun p => Direct2D.jyDep N p c)).sum) ∧
    (depositLoop (Direct2D.jzDep N) J0 qs c
      = J0 c + (qs.map (fun p => Direct2D.jzDep N p c)).sum) ∧
    (depositLoop (Esirk2D.JxDep N) J0 ps c
      = depositLoop (Esirk2D.JxDep N) J0 ps' c) ∧
    (depositLoop (Esirk2D.JyDep N) J0 ps c
      = depositLoop (Esirk2D.JyDep N) J0 ps' c) ∧
    (depositLoop (Esirk2D.JzDep N) J0 ps c
      = depositLoop (Esirk2D.JzDep N) J0 ps' c) ∧
    (depositLoop (Direct2D.jxDep N) J0 qs c
      = depositLoop (Direct2D.jxDep N) J0 qs' c) ∧
    (depositLoop (Direct2D.jyDep N) J0 qs c
      = depositLoop (Direct2D.jyDep N) J0 qs' c) ∧
    (depositLoop (Direct2D.jzDep N) J0 qs c
      = depositLoop (Direct2D.jzDep N) J0 qs' c) :=
  ⟨depositLoop_eq _ J0 ps c, depositLoop_eq _ J0 ps c, depositLoop_eq _ J0 ps c,
   depositLoop_eq _ J0 qs c, depositLoop_eq _ J0 qs c, depositLoop_eq _ J0 qs c,
   depositLoop_perm _ J0 ps ps' hp c, depositLoop_perm _ J0 ps ps' hp c,
   depositLoop_perm _ J0 ps ps' hp c, depositLoop_perm _ J0 qs qs' hq c,
   depositLoop_perm _ J0 qs qs' hq c, depositLoop_perm _ J0 qs qs' hq c⟩

/-- Witness for C8: two concrete two-particle batches in swapped order
satisfy the permutation hypotheses, and the Esirkepov Jx loop from a zero
array is additive and order-independent at cell (0,0). -/
theorem deposition_additive_perm_invariant_witness :
    List.Perm [esirkWitP, esirkTrimP] [esirkTrimP, esirkWitP] ∧
    List.Perm [directWitP, directRestP] [directRestP, directWitP] ∧
    (depositLoop (Esirk2D.JxDep 1) (fun _ => 0) [esirkWitP, esirkTrimP] (0, 0)
      = (fun _ : ℤ × ℤ => (0:ℚ)) (0, 0) +
        (([esirkWitP, esirkTrimP].map
          (fun p => Esirk2D.JxDep 1 p (0, 0))).sum)) ∧
    (depositLoop (Esirk2D.JxDep 1) (fun _ => 0) [esirkWitP, esirkTrimP] (0, 0)
      = depositLoop (Esirk2D.JxDep 1) (fun _ => 0) [esirkTrimP, esirkWitP] (0, 0)) := by
  have hp : List.Perm [esirkWitP, esirkTrimP] [esirkTrimP, esirkWitP] :=
    List.Perm.swap esirkTrimP esirkWitP []
  have hq : List.Perm [directWitP, directRestP] [directRestP, directWitP] :=
    List.Perm.swap directRestP directWitP []
  have h := deposition_additive_perm_invariant 1 (fun _ => 0) (0, 0)
    [esirkWitP, esirkTrimP] [esirkTrimP, esirkWitP]
    [directWitP, directRestP] [directRestP, directWitP] hp hq
  exact ⟨hp, hq, h.1, h.2.2.2.2.2.2.1⟩
